import Mathlib

/-!
# Lotus client-side deal settlement: escrow ledger, publish resolver, commitment watch

A shallow embedding of

* `chain/market/fundmgr.go` (`FundMgr.EnsureAvailable`),
* `markets/storageadapter/client.go` (`ClientNodeAdapter.ValidatePublishedDeal`,
  the closures of `ClientNodeAdapter.OnDealSectorCommitted`),
* `cli/mpool.go` (the nonce statistics of the `mpoolStat` action).

Go values are embedded as follows.  `types.BigInt` (arbitrary precision) is `Int`;
`address.Address`, `cid.Cid` and method numbers are compared by value and embedded as
`Nat`; byte slices are `List Nat`.  Calls into collaborators that live outside the
repository (state manager, chain store, message pool, CBOR codecs) are fields of an
environment record, each returning `Except`; every such call that a function makes is
appended to an effect log so that statements of the form "does not talk to the chain"
can be expressed.  A Go `(value, error)` return is an `Except`/outcome value.
-/

namespace Lotus

/-! ## Shared chain types -/

/-- Value of `address.Address`. -/
abbrev Address := Nat

/-- Value of `cid.Cid`. -/
abbrev Cid := Nat

/-- Byte slice. -/
abbrev Bytes := List Nat

/-- Value of `abi.MethodNum`. -/
abbrev MethodNum := Nat

/-- Value of `abi.DealID`. -/
abbrev DealID := Nat

/-- An error value produced by a collaborator outside the repository. -/
abbrev ExtErr := Nat

/-- Constants of `specs-actors/actors/builtin` that the source refers to by name. -/
structure Builtin where
  StorageMarketActorAddr : Address
  AddBalance : MethodNum
  PublishStorageDeals : MethodNum
  PreCommitSector : MethodNum
  ProveCommitSector : MethodNum
  deriving DecidableEq, Repr

/-- The fields of `types.Message`. -/
structure Message where
  To : Address
  From : Address
  Nonce : Nat
  Value : Int
  GasPrice : Int
  GasLimit : Int
  Method : MethodNum
  Params : Bytes
  deriving DecidableEq, Repr

/-- The fields of `types.MessageReceipt` that the source reads. -/
structure MessageReceipt where
  ExitCode : Int
  Return : Bytes
  deriving DecidableEq, Repr

/-- Errors built by the embedded functions, one constructor per `return ..., err` site. -/
inductive Error where
  /-- A collaborator error returned unchanged (`return err`). -/
  | ext (e : ExtErr)
  /-- Text "failed waiting for market AddBalance message: %w". -/
  | waitingForAddBalance (e : ExtErr)
  /-- Text "adding funds to storage miner market actor failed: exit %d". -/
  | addBalanceFailed (exit : Int)
  /-- Text "getting deal pubsish message: %w". -/
  | gettingPublishMessage (e : ExtErr)
  /-- Text "getting miner worker failed: %w". -/
  | gettingMinerWorker (e : ExtErr)
  /-- Text "deal wasn't published by storage provider: from=%s, provider=%s". -/
  | notPublishedByProvider (sender provider : Address)
  /-- Text "deal publish message wasn't set to StorageMarket actor (to=%s)". -/
  | wrongTarget (target : Address)
  /-- Text "deal publish message called incorrect method (method=%s)". -/
  | wrongMethod (method : MethodNum)
  /-- Text "deal publish didn't contain our deal (message cid: %s)". -/
  | notInPublish (msg : Cid)
  /-- Text "waiting for deal publish message: %w". -/
  | waitingForPublish (e : ExtErr)
  /-- Text "deal publish failed: exit=%d". -/
  | publishFailed (exit : Int)
  /-- Text "failed to look up deal on chain: %w". -/
  | dealLookupFailed (e : ExtErr)
  /-- Text "deal wasn't active: deal=%d, parentState=%s, h=%d". -/
  | dealNotActive (deal : DealID)
  /-- Text "handling applied event: %w". -/
  | handlingAppliedEvent (e : Error)
  /-- Text "unmarshal pre commit: %w". -/
  | unmarshalPreCommit (e : ExtErr)
  /-- Text "failed to unmarshal prove commit sector params: %w". -/
  | unmarshalProveCommit (e : ExtErr)
  deriving DecidableEq, Repr

/-! ## Escrow ledger: `chain/market/fundmgr.go` -/

/-- Result of `sm.MarketBalance`: the fields `Escrow` and `Locked`. -/
structure MarketBalance where
  Escrow : Int
  Locked : Int
  deriving DecidableEq, Repr

/-- The map `fm.available`. -/
abbrev Ledger := Address → Option Int

/-- The empty map built by `NewFundMgr`. -/
def Ledger.empty : Ledger := fun _ => none

/-- Map assignment `fm.available[addr] = avail`. -/
def Ledger.set (l : Ledger) (addr : Address) (avail : Int) : Ledger :=
  fun a => if a = addr then some avail else l a

/-- Collaborators of `FundMgr`: the state manager and the message pool. -/
structure FundEnv where
  /-- Call `fm.sm.MarketBalance(ctx, addr, nil)`. -/
  MarketBalance : Address → Except ExtErr MarketBalance
  /-- Call `actors.SerializeParams(&addr)`. -/
  SerializeParams : Address → Except ExtErr Bytes
  /-- Call `fm.mpool.MpoolPushMessage`; the result is the cid of the signed message. -/
  MpoolPushMessage : Message → Except ExtErr Cid
  /-- Call `fm.sm.WaitForMessage`; the result is the receipt. -/
  WaitForMessage : Cid → Except ExtErr MessageReceipt

/-- Calls that `EnsureAvailable` makes on the chain and on the message pool. -/
inductive FundEffect where
  | marketBalance (addr : Address)
  | push (msg : Message)
  | wait (c : Cid)
  deriving DecidableEq, Repr

/-- What one call of `EnsureAvailable` leaves behind. -/
structure FundResult where
  /-- The map `fm.available` after the call. -/
  available : Ledger
  /-- The calls made on chain and pool, in order. -/
  effects : List FundEffect
  /-- The returned error; `none` is Go `nil`. -/
  err : Option Error

/-- Lines 50-57 of `fundmgr.go`: from the balance before the request and the requested
amount, the pair `(toAdd, avail)`. -/
def reserve (avail0 amt : Int) : Int × Int :=
  let toAdd : Int := 0
  let avail := avail0 - amt
  if avail < 0 then (toAdd - avail, 0) else (toAdd, avail)

/-- The message literal of lines 68-76 of `fundmgr.go`. -/
def addBalanceMessage (b : Builtin) (wallet : Address) (toAdd : Int) (params : Bytes) :
    Message :=
  { To := b.StorageMarketActorAddr
    From := wallet
    Nonce := 0
    Value := toAdd
    GasPrice := 0
    GasLimit := 1000000
    Method := b.AddBalance
    Params := params }

/-- Lines 62-89 of `fundmgr.go`: serialize the parameters, push the `AddBalance`
message carrying `toAdd`, wait for it and check the exit code.  `pre` are the effects
of the critical section. -/
def pushAndWait (b : Builtin) (env : FundEnv) (available : Ledger)
    (pre : List FundEffect) (addr wallet : Address) (toAdd : Int) : FundResult :=
  match env.SerializeParams addr with
  | .error err => { available := available, effects := pre, err := some (.ext err) }
  | .ok params =>
    match env.MpoolPushMessage (addBalanceMessage b wallet toAdd params) with
    | .error err =>
      { available := available
        effects := pre ++ [.push (addBalanceMessage b wallet toAdd params)]
        err := some (.ext err) }
    | .ok smsg =>
      match env.WaitForMessage smsg with
      | .error err =>
        { available := available
          effects := pre ++ [.push (addBalanceMessage b wallet toAdd params), .wait smsg]
          err := some (.waitingForAddBalance err) }
      | .ok r =>
        if r.ExitCode ≠ 0 then
          { available := available
            effects := pre ++ [.push (addBalanceMessage b wallet toAdd params), .wait smsg]
            err := some (.addBalanceFailed r.ExitCode) }
        else
          { available := available
            effects := pre ++ [.push (addBalanceMessage b wallet toAdd params), .wait smsg]
            err := none }

/-- Function `FundMgr.EnsureAvailable`.  The critical section (lines 38-60) reads the
cached entry or queries the chain, decides and stores; the rest runs unlocked. -/
def EnsureAvailable (b : Builtin) (env : FundEnv) (available : Ledger)
    (addr wallet : Address) (amt : Int) : FundResult :=
  match available addr with
  | some avail0 =>
    let d := reserve avail0 amt
    pushAndWait b env (available.set addr d.2) [] addr wallet d.1
  | none =>
    match env.MarketBalance addr with
    | .error err =>
      { available := available, effects := [.marketBalance addr], err := some (.ext err) }
    | .ok bal =>
      let d := reserve (bal.Escrow - bal.Locked) amt
      pushAndWait b env (available.set addr d.2) [.marketBalance addr] addr wallet d.1

/-- The messages handed to `MpoolPushMessage` in an effect log. -/
def pushed : List FundEffect → List Message
  | [] => []
  | .push m :: rest => m :: pushed rest
  | _ :: rest => pushed rest

/-- The balance the reservation decision starts from: the cached entry, else
`Escrow - Locked` of a successful chain query. -/
def prevAvail (env : FundEnv) (available : Ledger) (addr : Address) : Option Int :=
  match available addr with
  | some avail0 => some avail0
  | none =>
    match env.MarketBalance addr with
    | .error _ => none
    | .ok bal => some (bal.Escrow - bal.Locked)

/-- One `EnsureAvailable` invocation together with the collaborators' answers to it. -/
structure Call where
  env : FundEnv
  addr : Address
  wallet : Address
  amt : Int

/-- A sequence of `EnsureAvailable` calls in the order the lock `fm.lk` serializes
their critical sections; returns the final map and all effects.  The part of a call
that runs unlocked does not touch the map, so an interleaving of those parts changes
only the order of the logged effects, not the map and not which messages are pushed. -/
def runCalls (b : Builtin) : Ledger → List Call → Ledger × List FundEffect
  | l, [] => (l, [])
  | l, c :: rest =>
    let r := EnsureAvailable b c.env l c.addr c.wallet c.amt
    let t := runCalls b r.available rest
    (t.1, r.effects ++ t.2)

/-! ## Publish resolver: `ClientNodeAdapter.ValidatePublishedDeal` -/

/-- The fields of `market.DealProposal` (specs-actors); the source reads `Provider`. -/
structure DealProposal where
  PieceCID : Cid
  PieceSize : Nat
  Client : Address
  Provider : Address
  StartEpoch : Int
  EndEpoch : Int
  StoragePricePerEpoch : Int
  ProviderCollateral : Int
  ClientCollateral : Int
  deriving DecidableEq, Repr

/-- The fields of `market.ClientDealProposal`. -/
structure ClientDealProposal where
  Proposal : DealProposal
  ClientSignature : Bytes
  deriving DecidableEq, Repr

/-- The fields of `storagemarket.ClientDeal` that the source reads: the embedded
`ClientDealProposal` and the cid `PublishMessage` points to. -/
structure ClientDeal where
  ClientDealProposal : ClientDealProposal
  PublishMessage : Cid
  deriving DecidableEq, Repr

/-- Collaborators of `ValidatePublishedDeal`. -/
structure ResolverEnv where
  /-- Call `c.cs.GetMessage`. -/
  GetMessage : Cid → Except ExtErr Message
  /-- Call `stmgr.GetMinerWorker(ctx, c.sm, nil, provider)`. -/
  GetMinerWorker : Address → Except ExtErr Address
  /-- Method `PublishStorageDealsParams.UnmarshalCBOR`; the result is `params.Deals`. -/
  UnmarshalParams : Bytes → Except ExtErr (List ClientDealProposal)
  /-- Function `cborutil.Dump`: the canonical encoding of a proposal. -/
  Dump : ClientDealProposal → Except ExtErr Bytes
  /-- Call `c.sm.WaitForMessage`; the result is the receipt. -/
  WaitForMessage : Cid → Except ExtErr MessageReceipt
  /-- Method `PublishStorageDealsReturn.UnmarshalCBOR`; the result is `res.IDs`. -/
  UnmarshalReturn : Bytes → Except ExtErr (List DealID)

/-- Function `cborutil.Equals`: dump both values and compare the bytes. -/
def Equals (dump : ClientDealProposal → Except ExtErr Bytes)
    (a c : ClientDealProposal) : Except ExtErr Bool :=
  match dump a with
  | .error err => .error err
  | .ok ab =>
    match dump c with
    | .error err => .error err
    | .ok bb => .ok (ab == bb)

/-- The loop of lines 201-213 from position `i` on: the value of `dealIdx` when the
loop is left (`-1` when no entry compared equal), or the error of `cborutil.Equals`. -/
def scanDeals (dump : ClientDealProposal → Except ExtErr Bytes)
    (proposal : ClientDealProposal) : List ClientDealProposal → Nat → Except ExtErr Int
  | [], _ => .ok (-1)
  | sd :: rest, i =>
    match Equals dump proposal sd with
    | .error err => .error err
    | .ok eq => if eq then .ok (i : Int) else scanDeals dump proposal rest (i + 1)

/-- Calls that `ValidatePublishedDeal` makes, and its indexing of `res.IDs`. -/
inductive ResolveStep where
  | getMessage
  | getMinerWorker
  | unmarshalParams
  | waitForMessage
  | unmarshalReturn
  | indexIDs (i : Int)
  deriving DecidableEq, Repr

/-- How a Go call ends: a value with a nil error, an error (the value is the zero
value), or a run-time panic. -/
inductive Outcome (α : Type) where
  | ok (v : α)
  | error (e : Error)
  | panic
  deriving DecidableEq, Repr

/-- Result of `ValidatePublishedDeal`: how it ended and the calls it made, in order. -/
structure ResolveResult where
  out : Outcome DealID
  steps : List ResolveStep
  deriving DecidableEq, Repr

/-- Function `ClientNodeAdapter.ValidatePublishedDeal`. -/
def ValidatePublishedDeal (b : Builtin) (env : ResolverEnv) (deal : ClientDeal) :
    ResolveResult :=
  match env.GetMessage deal.PublishMessage with
  | .error err => ⟨.error (.gettingPublishMessage err), [.getMessage]⟩
  | .ok pubmsg =>
  match env.GetMinerWorker deal.ClientDealProposal.Proposal.Provider with
  | .error err => ⟨.error (.gettingMinerWorker err), [.getMessage, .getMinerWorker]⟩
  | .ok pw =>
  if pubmsg.From ≠ pw then
    ⟨.error (.notPublishedByProvider pubmsg.From deal.ClientDealProposal.Proposal.Provider),
      [.getMessage, .getMinerWorker]⟩
  else if pubmsg.To ≠ b.StorageMarketActorAddr then
    ⟨.error (.wrongTarget pubmsg.To), [.getMessage, .getMinerWorker]⟩
  else if pubmsg.Method ≠ b.PublishStorageDeals then
    ⟨.error (.wrongMethod pubmsg.Method), [.getMessage, .getMinerWorker]⟩
  else
  match env.UnmarshalParams pubmsg.Params with
  | .error err => ⟨.error (.ext err), [.getMessage, .getMinerWorker, .unmarshalParams]⟩
  | .ok deals =>
  match scanDeals env.Dump deal.ClientDealProposal deals 0 with
  | .error err => ⟨.error (.ext err), [.getMessage, .getMinerWorker, .unmarshalParams]⟩
  | .ok dealIdx =>
  if dealIdx = -1 then
    ⟨.error (.notInPublish deal.PublishMessage),
      [.getMessage, .getMinerWorker, .unmarshalParams]⟩
  else
  match env.WaitForMessage deal.PublishMessage with
  | .error err =>
    ⟨.error (.waitingForPublish err),
      [.getMessage, .getMinerWorker, .unmarshalParams, .waitForMessage]⟩
  | .ok ret =>
  if ret.ExitCode ≠ 0 then
    ⟨.error (.publishFailed ret.ExitCode),
      [.getMessage, .getMinerWorker, .unmarshalParams, .waitForMessage]⟩
  else
  match env.UnmarshalReturn ret.Return with
  | .error err =>
    ⟨.error (.ext err),
      [.getMessage, .getMinerWorker, .unmarshalParams, .waitForMessage, .unmarshalReturn]⟩
  | .ok ids =>
  match ids.get? dealIdx.toNat with
  | some id =>
    ⟨.ok id, [.getMessage, .getMinerWorker, .unmarshalParams, .waitForMessage,
      .unmarshalReturn, .indexIDs dealIdx]⟩
  | none =>
    ⟨.panic, [.getMessage, .getMinerWorker, .unmarshalParams, .waitForMessage,
      .unmarshalReturn, .indexIDs dealIdx]⟩

/-- The three sender/target/method mismatch errors of lines 184-194. -/
def Error.isValidation : Error → Bool
  | .notPublishedByProvider _ _ => true
  | .wrongTarget _ => true
  | .wrongMethod _ => true
  | _ => false

/-! ## Commitment watch: the closures of `ClientNodeAdapter.OnDealSectorCommitted` -/

/-- Value of `*types.TipSet`. -/
abbrev TipSet := Nat

/-- The fields of `market.DealState`; epochs are `abi.ChainEpoch`, a signed integer. -/
structure DealState where
  SectorStartEpoch : Int
  LastUpdatedEpoch : Int
  SlashEpoch : Int
  deriving DecidableEq, Repr

/-- Result of `stmgr.GetStorageDeal`: proposal and state of the deal. -/
structure OnChainDeal where
  Proposal : DealProposal
  State : DealState
  deriving DecidableEq, Repr

/-- Result of the closure `checkFunc`: the three returned values and the arguments of
the invocations of the callback `cb`, in order (`none` is `cb(nil)`). -/
structure CheckResult where
  done : Bool
  more : Bool
  err : Option Error
  cbCalls : List (Option Error)
  deriving DecidableEq, Repr

/-- Closure `checkFunc` of `OnDealSectorCommitted` (lines 237-251). -/
def checkFunc (GetStorageDeal : DealID → TipSet → Except ExtErr OnChainDeal)
    (dealId : DealID) (ts : TipSet) : CheckResult :=
  match GetStorageDeal dealId ts with
  | .error err =>
    { done := false, more := false, err := some (.dealLookupFailed err), cbCalls := [] }
  | .ok sd =>
    if sd.State.SectorStartEpoch > 0 then
      { done := true, more := false, err := none, cbCalls := [none] }
    else
      { done := false, more := true, err := none, cbCalls := [] }

/-- Result of the closure `called`: the two returned values and the arguments of the
invocations of the callback `cb`, in order (`none` is `cb(nil)`). -/
structure CalledResult where
  more : Bool
  err : Option Error
  cbCalls : List (Option Error)
  deriving DecidableEq, Repr

/-- Body of the closure `called` (lines 260-278), before the deferred function runs.
A nil `msg` is `none`; that branch only logs "timed out waiting for deal activation". -/
def calledBody (GetStorageDeal : DealID → TipSet → Except ExtErr OnChainDeal)
    (dealId : DealID) (msg : Option Message) (ts : TipSet) : CalledResult :=
  match msg with
  | none => { more := false, err := none, cbCalls := [] }
  | some _ =>
    match GetStorageDeal dealId ts with
    | .error err => { more := false, err := some (.dealLookupFailed err), cbCalls := [] }
    | .ok sd =>
      if sd.State.SectorStartEpoch < 1 then
        { more := false, err := some (.dealNotActive dealId), cbCalls := [] }
      else
        { more := false, err := none, cbCalls := [none] }

/-- Closure `called` of `OnDealSectorCommitted` (lines 253-279): the body, then the
deferred function of lines 254-258, which hands a non-nil returned error to `cb`.
The receipt and the current height are not read. -/
def called (GetStorageDeal : DealID → TipSet → Except ExtErr OnChainDeal)
    (dealId : DealID) (msg : Option Message) (_rec : Option MessageReceipt) (ts : TipSet)
    (_curH : Int) : CalledResult :=
  let r := calledBody GetStorageDeal dealId msg ts
  match r.err with
  | some err => { r with cbCalls := r.cbCalls ++ [some (.handlingAppliedEvent err)] }
  | none => r

/-- The fields of `miner.SectorPreCommitInfo`; the source reads `SectorNumber` and
`DealIDs`. -/
structure SectorPreCommitInfo where
  RegisteredProof : Nat
  SectorNumber : Nat
  SealedCID : Cid
  SealRandEpoch : Int
  DealIDs : List DealID
  Expiration : Int
  deriving DecidableEq, Repr

/-- The fields of `miner.ProveCommitSectorParams`; the source reads `SectorNumber`. -/
structure ProveCommitSectorParams where
  SectorNumber : Nat
  Proof : Bytes
  deriving DecidableEq, Repr

/-- The two CBOR decoders that `matchEvent` calls. -/
structure WatchCodec where
  /-- Method `SectorPreCommitInfo.UnmarshalCBOR`. -/
  UnmarshalPreCommit : Bytes → Except ExtErr SectorPreCommitInfo
  /-- Method `ProveCommitSectorParams.UnmarshalCBOR`. -/
  UnmarshalProveCommit : Bytes → Except ExtErr ProveCommitSectorParams

/-- The variables `sectorNumber` and `sectorFound` (lines 287-288) that the closures of
one `OnDealSectorCommitted` call share. -/
structure MatchState where
  sectorNumber : Nat
  sectorFound : Bool
  deriving DecidableEq, Repr

/-- The zero values the two variables are declared with. -/
def MatchState.init : MatchState := { sectorNumber := 0, sectorFound := false }

/-- Closure `matchEvent` of `OnDealSectorCommitted` (lines 289-328): the state of the
shared variables after the call and the returned `(bool, error)`. -/
def matchEvent (b : Builtin) (codec : WatchCodec) (provider : Address) (dealId : DealID)
    (st : MatchState) (msg : Message) : MatchState × Except Error Bool :=
  if msg.To ≠ provider then (st, .ok false)
  else if msg.Method = b.PreCommitSector then
    match codec.UnmarshalPreCommit msg.Params with
    | .error err => (st, .error (.unmarshalPreCommit err))
    | .ok params =>
      if params.DealIDs.any (fun did => did == dealId) then
        ({ sectorNumber := params.SectorNumber, sectorFound := true }, .ok false)
      else (st, .ok false)
  else if msg.Method = b.ProveCommitSector then
    match codec.UnmarshalProveCommit msg.Params with
    | .error err => (st, .error (.unmarshalProveCommit err))
    | .ok params =>
      if !st.sectorFound then (st, .ok false)
      else if params.SectorNumber ≠ st.sectorNumber then (st, .ok false)
      else (st, .ok true)
  else (st, .ok false)

/-- Closure `revert` of `OnDealSectorCommitted` (lines 281-285): it logs a warning and
returns nil; the shared variables are not assigned. -/
def revert (st : MatchState) (_ts : TipSet) : MatchState × Option Error :=
  (st, none)

/-- The shared variables after `matchEvent` has been applied to the messages of the
feed, in order. -/
def feed (b : Builtin) (codec : WatchCodec) (provider : Address) (dealId : DealID) :
    MatchState → List Message → MatchState
  | st, [] => st
  | st, m :: rest => feed b codec provider dealId (matchEvent b codec provider dealId st m).1 rest

/-- Phase-one reading of a message: the sector number of a `PreCommitSector` message
addressed to the provider whose `DealIDs` contain the watched deal, else `none`. -/
def phaseOneSector (b : Builtin) (codec : WatchCodec) (provider : Address) (dealId : DealID)
    (m : Message) : Option Nat :=
  if m.To = provider ∧ m.Method = b.PreCommitSector then
    match codec.UnmarshalPreCommit m.Params with
    | .error _ => none
    | .ok info => if dealId ∈ info.DealIDs then some info.SectorNumber else none
  else none

/-- Sector number of the most recent phase-one message among the messages seen. -/
def lastPhaseOneSector (b : Builtin) (codec : WatchCodec) (provider : Address)
    (dealId : DealID) (seen : List Message) : Option Nat :=
  (seen.filterMap (phaseOneSector b codec provider dealId)).getLast?

/-! ## Mempool statistics: the action of `mpoolStat` in `cli/mpool.go` -/

/-- The fields of `types.SignedMessage`. -/
structure SignedMessage where
  Message : Message
  Signature : Bytes
  deriving DecidableEq, Repr

/-- Number of values of a `uint64`. -/
def uint64Size : Nat := 2 ^ 64

/-- The map `statBucket.msgs`, from nonce to pending message, as an association list
with one entry per key. -/
abbrev StatBucket := List (Nat × SignedMessage)

/-- Map lookup `bkt.msgs[k]`. -/
def StatBucket.lookup : StatBucket → Nat → Option SignedMessage
  | [], _ => none
  | (k0, v) :: rest, k => if k0 = k then some v else StatBucket.lookup rest k

/-- Map assignment `bkt.msgs[k] = v`. -/
def StatBucket.insert : StatBucket → Nat → SignedMessage → StatBucket
  | [], k, v => [(k, v)]
  | (k0, v0) :: rest, k, v =>
    if k0 = k then (k, v) :: rest else (k0, v0) :: StatBucket.insert rest k v

/-- One iteration of the loop of lines 119-129 on the map `buckets`. -/
def addToBuckets : List (Address × StatBucket) → SignedMessage → List (Address × StatBucket)
  | [], v => [(v.Message.From, StatBucket.insert [] v.Message.Nonce v)]
  | (a, bkt) :: rest, v =>
    if a = v.Message.From then (a, bkt.insert v.Message.Nonce v) :: rest
    else (a, bkt) :: addToBuckets rest v

/-- The loop of lines 119-129: the pending messages grouped by sender, each group keyed
by nonce. -/
def buildBuckets (msgs : List SignedMessage) : List (Address × StatBucket) :=
  msgs.foldl addToBuckets []

/-- The loop of lines 141-147 started at `cur`.  The source loop has no bound; `fuel`
bounds the number of lookups, and `none` means the bound was reached. -/
def scanCur (bkt : StatBucket) : Nat → Nat → Option Nat
  | _, 0 => none
  | cur, fuel + 1 =>
    match bkt.lookup cur with
    | none => some cur
    | some _ => scanCur bkt ((cur + 1) % uint64Size) fuel

/-- The loop of lines 151-158 over the entries of the bucket, from the counters
`(past, future)`. -/
def countPastFuture (actNonce cur : Nat) : StatBucket → Nat × Nat → Nat × Nat
  | [], acc => acc
  | (_, m) :: rest, (past, future) =>
    countPastFuture actNonce cur rest
      (if m.Message.Nonce < actNonce then (past + 1) % uint64Size else past,
       if m.Message.Nonce > cur then (future + 1) % uint64Size else future)

/-- The fields of `mpStat`. -/
structure MpStat where
  addr : Address
  past : Nat
  cur : Nat
  future : Nat
  deriving DecidableEq, Repr

/-- Lines 140-165 for one bucket and the nonce `actNonce` of its actor: the value
`cur` of the scan and the appended `mpStat`; `none` when the scan ran out of `fuel`. -/
def bucketStat (a : Address) (bkt : StatBucket) (actNonce fuel : Nat) :
    Option (Nat × MpStat) :=
  match scanCur bkt actNonce fuel with
  | none => none
  | some cur =>
    let pf := countPastFuture actNonce cur bkt (0, 0)
    some (cur, { addr := a, past := pf.1
                 cur := (cur + uint64Size - actNonce) % uint64Size, future := pf.2 })

/-! ## Concrete collaborators for worked examples -/

/-- Constants for worked examples: market actor address and method numbers. -/
def exBuiltin : Builtin :=
  { StorageMarketActorAddr := 5, AddBalance := 2, PublishStorageDeals := 4
    PreCommitSector := 6, ProveCommitSector := 7 }

/-- A chain that reports the given escrow and locked amounts, a pool that accepts every
message under cid 77, and an inclusion with exit code 0. -/
def exFundEnv (escrow locked : Int) : FundEnv :=
  { MarketBalance := fun _ => .ok { Escrow := escrow, Locked := locked }
    SerializeParams := fun a => .ok [a]
    MpoolPushMessage := fun _ => .ok 77
    WaitForMessage := fun _ => .ok { ExitCode := 0, Return := [] } }

/-- The `AddBalance` message that `EnsureAvailable` builds in the worked examples for
account 1 and wallet 2. -/
def exAddBalance (value : Int) : Message :=
  { To := 5, From := 2, Nonce := 0, Value := value, GasPrice := 0, GasLimit := 1000000
    Method := 2, Params := [1] }

/-- A ledger whose only entry is `available` for account 1. -/
def exLedger (available : Int) : Ledger := Ledger.empty.set 1 available

/-- Three requests on account 1 against escrow 100, locked 20: amounts 100, 100, -120. -/
def exSignedCalls : List Call :=
  [ { env := exFundEnv 100 20, addr := 1, wallet := 2, amt := 100 },
    { env := exFundEnv 100 20, addr := 1, wallet := 2, amt := 100 },
    { env := exFundEnv 100 20, addr := 1, wallet := 2, amt := -120 } ]

/-- Two requests on account 1 against escrow 100, locked 20: amounts 50 and 30. -/
def exCoveredCalls : List Call :=
  [ { env := exFundEnv 100 20, addr := 1, wallet := 2, amt := 50 },
    { env := exFundEnv 100 20, addr := 1, wallet := 2, amt := 30 } ]

/-- Proposal of the worked examples, told apart by its piece cid; provider is 3. -/
def exProposal (piece : Cid) : ClientDealProposal :=
  { Proposal :=
      { PieceCID := piece, PieceSize := 1024, Client := 8, Provider := 3, StartEpoch := 10
        EndEpoch := 20, StoragePricePerEpoch := 1, ProviderCollateral := 0
        ClientCollateral := 0 }
    ClientSignature := [] }

/-- Publish message of the worked examples, sent by worker 9 with the given target and
method. -/
def exPublishMessage (target : Address) (method : MethodNum) : Message :=
  { To := target, From := 9, Nonce := 0, Value := 0, GasPrice := 0, GasLimit := 1000000
    Method := method, Params := [42] }

/-- A chain on which the publish message `pubmsg` is found, provider 3 has worker 9,
the params decode to `batch`, a proposal is encoded by its piece cid, and the receipt
has exit code `exit` and a return value decoding to `ids`. -/
def exResolverEnv (pubmsg : Message) (batch : List ClientDealProposal) (exit : Int)
    (ids : List DealID) : ResolverEnv :=
  { GetMessage := fun _ => .ok pubmsg
    GetMinerWorker := fun _ => .ok 9
    UnmarshalParams := fun _ => .ok batch
    Dump := fun p => .ok [p.Proposal.PieceCID]
    WaitForMessage := fun _ => .ok { ExitCode := exit, Return := [] }
    UnmarshalReturn := fun _ => .ok ids }

/-- A client deal of the worked examples: proposal with the given piece cid, publish
message cid 55. -/
def exDeal (piece : Cid) : ClientDeal :=
  { ClientDealProposal := exProposal piece, PublishMessage := 55 }

/-- A deal lookup that reports the given `SectorStartEpoch`. -/
def exGetStorageDeal (start : Int) : DealID → TipSet → Except ExtErr OnChainDeal :=
  fun _ _ => .ok { Proposal := (exProposal 1).Proposal
                   State := { SectorStartEpoch := start, LastUpdatedEpoch := -1
                              SlashEpoch := -1 } }

/-- Collaborators of `FundMgr` with the given answers of the balance query, the pool
and the wait. -/
def exFundEnvWith (bal : Except ExtErr MarketBalance) (push : Except ExtErr Cid)
    (wait : Except ExtErr MessageReceipt) : FundEnv :=
  { MarketBalance := fun _ => bal
    SerializeParams := fun a => .ok [a]
    MpoolPushMessage := fun _ => push
    WaitForMessage := fun _ => wait }

/-- A deal lookup that fails with error 13. -/
def exFailingLookup : DealID → TipSet → Except ExtErr OnChainDeal :=
  fun _ _ => .error 13

/-- Decoders of the worked examples: pre-commit params are the sector number followed
by the deal ids, prove-commit params are the sector number alone. -/
def exCodec : WatchCodec :=
  { UnmarshalPreCommit := fun bs =>
      match bs with
      | [] => .error 1
      | sector :: deals =>
        .ok { RegisteredProof := 0, SectorNumber := sector, SealedCID := 0
              SealRandEpoch := 0, DealIDs := deals, Expiration := 0 }
    UnmarshalProveCommit := fun bs =>
      match bs with
      | [sector] => .ok { SectorNumber := sector, Proof := [] }
      | _ => .error 2 }

/-- A `PreCommitSector` message to provider 3 for the given sector and deals. -/
def exPreCommit (sector : Nat) (deals : List DealID) : Message :=
  { To := 3, From := 9, Nonce := 0, Value := 0, GasPrice := 0, GasLimit := 1000000
    Method := 6, Params := sector :: deals }

/-- A `ProveCommitSector` message to the given address for the given sector. -/
def exProveCommit (target : Address) (sector : Nat) : Message :=
  { To := target, From := 9, Nonce := 0, Value := 0, GasPrice := 0, GasLimit := 1000000
    Method := 7, Params := [sector] }

/-- A pending message of sender 9 with the given nonce. -/
def exPending (nonce : Nat) : SignedMessage :=
  { Message := { To := 5, From := 9, Nonce := nonce, Value := 0, GasPrice := 0
                 GasLimit := 1000000, Method := 0, Params := [] }
    Signature := [] }

/-- The bucket of sender 9 holding the nonces 2, 5, 6, 7 and 9. -/
def exBucket : StatBucket :=
  [(5, exPending 5), (2, exPending 2), (7, exPending 7), (6, exPending 6), (9, exPending 9)]

/-! ## Theorems: escrow ledger -/

theorem reserve_fst (prev amt : Int) : (reserve prev amt).1 = max 0 (amt - prev) := by
  unfold reserve
  by_cases h : prev - amt < 0
  · simp only [h, if_true]
    rw [max_eq_right (by omega)]
    omega
  · simp only [h, if_false]
    rw [max_eq_left (by omega)]

theorem reserve_snd (prev amt : Int) : (reserve prev amt).2 = max 0 (prev - amt) := by
  unfold reserve
  by_cases h : prev - amt < 0
  · simp only [h, if_true]
    rw [max_eq_left (by omega)]
  · simp only [h, if_false]
    rw [max_eq_right (by omega)]

theorem pushed_append (xs ys : List FundEffect) :
    pushed (xs ++ ys) = pushed xs ++ pushed ys := by
  induction xs with
  | nil => rfl
  | cons x xs ih => cases x <;> simp [pushed, ih]

/-- The map after `pushAndWait` is the map it was given. -/
theorem pushAndWait_available (b : Builtin) (env : FundEnv) (l : Ledger)
    (pre : List FundEffect) (addr wallet : Address) (toAdd : Int) :
    (pushAndWait b env l pre addr wallet toAdd).available = l := by
  unfold pushAndWait
  split
  · rfl
  · split
    · rfl
    · split
      · rfl
      · split <;> rfl

/-- The messages `pushAndWait` hands to the pool: none when serialization fails, else
exactly the `AddBalance` message carrying `toAdd`. -/
theorem pushAndWait_pushed (b : Builtin) (env : FundEnv) (l : Ledger)
    (addr wallet : Address) (toAdd : Int) (pre : List FundEffect) (hpre : pushed pre = []) :
    pushed (pushAndWait b env l pre addr wallet toAdd).effects =
      match env.SerializeParams addr with
      | .error _ => []
      | .ok params => [addBalanceMessage b wallet toAdd params] := by
  unfold pushAndWait
  split
  · simpa using hpre
  · split
    · simp [pushed_append, hpre, pushed]
    · split
      · simp [pushed_append, hpre, pushed]
      · split <;> simp [pushed_append, hpre, pushed]

/-- A call whose starting balance is `prev` stores `(reserve prev amt).2` and pushes
only the message of value `(reserve prev amt).1`. -/
theorem ensureAvailable_of_prev (b : Builtin) (env : FundEnv) (l : Ledger)
    (addr wallet : Address) (amt prev : Int) (hprev : prevAvail env l addr = some prev) :
    (EnsureAvailable b env l addr wallet amt).available = l.set addr (reserve prev amt).2 ∧
    pushed (EnsureAvailable b env l addr wallet amt).effects =
      match env.SerializeParams addr with
      | .error _ => []
      | .ok params => [addBalanceMessage b wallet (reserve prev amt).1 params] := by
  unfold prevAvail at hprev
  unfold EnsureAvailable
  cases hl : l addr with
  | some a0 =>
    rw [hl] at hprev
    simp only [Option.some.injEq] at hprev
    subst hprev
    exact ⟨pushAndWait_available _ _ _ _ _ _ _, pushAndWait_pushed _ _ _ _ _ _ _ rfl⟩
  | none =>
    rw [hl] at hprev
    cases hq : env.MarketBalance addr with
    | error e => rw [hq] at hprev; simp at hprev
    | ok bal =>
      rw [hq] at hprev
      simp only [Option.some.injEq] at hprev
      subst hprev
      exact ⟨pushAndWait_available _ _ _ _ _ _ _, pushAndWait_pushed _ _ _ _ _ _ _ rfl⟩

theorem prevAvail_of_cases (env : FundEnv) (l : Ledger) (addr : Address) (prev : Int)
    (h : l addr = some prev ∨
      (l addr = none ∧ ∃ bal, env.MarketBalance addr = .ok bal ∧ prev = bal.Escrow - bal.Locked)) :
    prevAvail env l addr = some prev := by
  unfold prevAvail
  rcases h with h | ⟨h, bal, hq, hp⟩
  · rw [h]
  · rw [h]
    simp only [hq, hp]

/-- A call that has no starting balance (no entry, failed query) leaves the map alone
and pushes nothing. -/
theorem ensureAvailable_of_no_prev (b : Builtin) (env : FundEnv) (l : Ledger)
    (addr wallet : Address) (amt : Int) (hprev : prevAvail env l addr = none) :
    (EnsureAvailable b env l addr wallet amt).available = l ∧
    pushed (EnsureAvailable b env l addr wallet amt).effects = [] := by
  unfold prevAvail at hprev
  unfold EnsureAvailable
  cases hl : l addr with
  | some a0 => rw [hl] at hprev; simp at hprev
  | none =>
    rw [hl] at hprev
    cases hq : env.MarketBalance addr with
    | error e => exact ⟨rfl, rfl⟩
    | ok bal => rw [hq] at hprev; simp at hprev

/-- All entries of a ledger are non-negative. -/
theorem set_nonneg (l : Ledger) (addr : Address) (x : Int) (hx : 0 ≤ x)
    (hl : ∀ a v, l a = some v → 0 ≤ v) : ∀ a v, l.set addr x a = some v → 0 ≤ v := by
  intro a v h
  unfold Ledger.set at h
  by_cases ha : a = addr
  · simp only [ha, if_true, Option.some.injEq] at h
    omega
  · simp only [ha, if_false] at h
    exact hl a v h

theorem reserve_snd_nonneg (prev amt : Int) : 0 ≤ (reserve prev amt).2 := by
  rw [reserve_snd]
  exact le_max_left _ _

/-- One call keeps all entries non-negative. -/
theorem ensureAvailable_nonneg (b : Builtin) (env : FundEnv) (l : Ledger)
    (addr wallet : Address) (amt : Int) (hl : ∀ a v, l a = some v → 0 ≤ v) :
    ∀ a v, (EnsureAvailable b env l addr wallet amt).available a = some v → 0 ≤ v := by
  cases hp : prevAvail env l addr with
  | none =>
    rw [(ensureAvailable_of_no_prev b env l addr wallet amt hp).1]
    exact hl
  | some prev =>
    rw [(ensureAvailable_of_prev b env l addr wallet amt prev hp).1]
    exact set_nonneg l addr _ (reserve_snd_nonneg prev amt) hl

/-- Any sequence of calls keeps all entries non-negative. -/
theorem runCalls_nonneg (b : Builtin) (calls : List Call) :
    ∀ l : Ledger, (∀ a v, l a = some v → 0 ≤ v) →
      ∀ a v, (runCalls b l calls).1 a = some v → 0 ≤ v := by
  induction calls with
  | nil => intro l hl; simpa [runCalls] using hl
  | cons c rest ih =>
    intro l hl
    simp only [runCalls]
    exact ih _ (ensureAvailable_nonneg b c.env l c.addr c.wallet c.amt hl)

theorem list_sum_nonneg (xs : List Int) (h : ∀ x ∈ xs, 0 ≤ x) : 0 ≤ xs.sum := by
  induction xs with
  | nil => simp
  | cons x xs ih =>
    simp only [List.sum_cons]
    have h1 := h x (List.mem_cons_self _ _)
    have h2 := ih (fun y hy => h y (List.mem_cons_of_mem _ hy))
    omega

/-- Requests that are non-negative and covered by the starting balance push only
messages of value zero. -/
theorem runCalls_covered (b : Builtin) (addr : Address) (bal : MarketBalance)
    (calls : List Call) :
    ∀ (l : Ledger) (v : Int),
      (l addr = some v ∨ (l addr = none ∧ v = bal.Escrow - bal.Locked)) →
      (∀ c ∈ calls, c.addr = addr) →
      (∀ c ∈ calls, c.env.MarketBalance addr = .ok bal) →
      (∀ c ∈ calls, 0 ≤ c.amt) →
      (calls.map (fun c => c.amt)).sum ≤ v →
      ∀ m ∈ pushed (runCalls b l calls).2, m.Value = 0 := by
  induction calls with
  | nil => intro l v _ _ _ _ _ m hm; simp [runCalls, pushed] at hm
  | cons c rest ih =>
    intro l v hv haddr hbal hnn hsum m hm
    have hca : c.addr = addr := haddr c (List.mem_cons_self _ _)
    have hcb : c.env.MarketBalance addr = .ok bal := hbal c (List.mem_cons_self _ _)
    have hcn : 0 ≤ c.amt := hnn c (List.mem_cons_self _ _)
    have hrest : 0 ≤ (rest.map (fun c => c.amt)).sum := by
      apply list_sum_nonneg
      intro x hx
      rcases List.mem_map.1 hx with ⟨c2, hc2, rfl⟩
      exact hnn c2 (List.mem_cons_of_mem _ hc2)
    simp only [List.map_cons, List.sum_cons] at hsum
    have hprev : prevAvail c.env l addr = some v := by
      apply prevAvail_of_cases
      rcases hv with h | ⟨h, hv2⟩
      · exact Or.inl h
      · exact Or.inr ⟨h, bal, hcb, hv2⟩
    have hstep := ensureAvailable_of_prev b c.env l addr c.wallet c.amt v hprev
    have hres : reserve v c.amt = (0, v - c.amt) := by
      unfold reserve
      have : ¬ (v - c.amt < 0) := by omega
      simp only [this, if_false]
    simp only [runCalls, pushed_append, List.mem_append, hca] at hm
    rcases hm with hm | hm
    · rw [hstep.2, hres] at hm
      cases hs : c.env.SerializeParams addr with
      | error e => rw [hs] at hm; simp at hm
      | ok params =>
        rw [hs] at hm
        simp only [List.mem_singleton] at hm
        rw [hm]
        rfl
    · rw [hstep.1, hres] at hm
      refine ih (l.set addr (v - c.amt)) (v - c.amt) (Or.inl ?_)
        (fun c2 hc2 => haddr c2 (List.mem_cons_of_mem _ hc2))
        (fun c2 hc2 => hbal c2 (List.mem_cons_of_mem _ hc2))
        (fun c2 hc2 => hnn c2 (List.mem_cons_of_mem _ hc2)) (by omega) m hm
      simp [Ledger.set]

/-- C1: for every ledger state, account and amount, `EnsureAvailable` starts from
`prev`, the cached entry when there is one and otherwise `Escrow - Locked` of the chain
query; it stores `max 0 (prev - amt)` for the account, every message it pushes carries
the value `max 0 (amt - prev)`, and when the parameters serialize it pushes exactly the
`AddBalance` message with that value.  With cached available 30 and amount 90 the
stored value is 0 and the value pushed is 60. -/
theorem ensureAvailable_decision (b : Builtin) (env : FundEnv) (l : Ledger)
    (addr wallet : Address) (amt prev : Int)
    (hprev : l addr = some prev ∨
      (l addr = none ∧ ∃ bal, env.MarketBalance addr = .ok bal ∧ prev = bal.Escrow - bal.Locked)) :
    (EnsureAvailable b env l addr wallet amt).available addr = some (max 0 (prev - amt)) ∧
    (∀ m ∈ pushed (EnsureAvailable b env l addr wallet amt).effects,
      m.Value = max 0 (amt - prev)) ∧
    (∀ params, env.SerializeParams addr = .ok params →
      pushed (EnsureAvailable b env l addr wallet amt).effects =
        [addBalanceMessage b wallet (max 0 (amt - prev)) params]) ∧
    (prev = 30 → amt = 90 →
      (EnsureAvailable b env l addr wallet amt).available addr = some 0 ∧
      ∀ m ∈ pushed (EnsureAvailable b env l addr wallet amt).effects, m.Value = 60) := by
  have h := ensureAvailable_of_prev b env l addr wallet amt prev
    (prevAvail_of_cases env l addr prev hprev)
  rw [reserve_fst, reserve_snd] at h
  have h1 : (EnsureAvailable b env l addr wallet amt).available addr
      = some (max 0 (prev - amt)) := by
    rw [h.1]; simp [Ledger.set]
  have h2 : ∀ m ∈ pushed (EnsureAvailable b env l addr wallet amt).effects,
      m.Value = max 0 (amt - prev) := by
    intro m hm
    rw [h.2] at hm
    cases hs : env.SerializeParams addr with
    | error e => rw [hs] at hm; simp at hm
    | ok params =>
      rw [hs] at hm
      simp only [List.mem_singleton] at hm
      rw [hm]; rfl
  refine ⟨h1, h2, ?_, ?_⟩
  · intro params hs
    rw [h.2, hs]
  · intro hp ha
    subst hp ha
    refine ⟨by rw [h1]; rfl, ?_⟩
    intro m hm
    rw [h2 m hm]; rfl

/-- Witness for C1: account 1 with cached available 30, amount 90. -/
theorem ensureAvailable_decision_witness :
    (exLedger 30 1 = some 30 ∨
      (exLedger 30 1 = none ∧
        ∃ bal, (exFundEnv 100 20).MarketBalance 1 = .ok bal ∧ (30 : Int) = bal.Escrow - bal.Locked)) ∧
    (EnsureAvailable exBuiltin (exFundEnv 100 20) (exLedger 30) 1 2 90).available 1 = some 0 ∧
    pushed (EnsureAvailable exBuiltin (exFundEnv 100 20) (exLedger 30) 1 2 90).effects
      = [exAddBalance 60] := by
  have h := ensureAvailable_decision exBuiltin (exFundEnv 100 20) (exLedger 30) 1 2 90 30
    (Or.inl rfl)
  refine ⟨Or.inl rfl, (h.2.2.2 rfl rfl).1, ?_⟩
  rw [h.2.2.1 [1] rfl]
  rfl

/-- C2 (evaluation of the code): with escrow 100, locked 20 and amount 50 no top-up is
needed, yet `EnsureAvailable` pushes an `AddBalance` message of value 0 to the pool and
waits for its inclusion before it returns; the cached available is 30. -/
theorem ensureAvailable_covered_still_pushes :
    (EnsureAvailable exBuiltin (exFundEnv 100 20) Ledger.empty 1 2 50).effects
      = [.marketBalance 1, .push (exAddBalance 0), .wait 77] ∧
    (EnsureAvailable exBuiltin (exFundEnv 100 20) Ledger.empty 1 2 50).err = none ∧
    (EnsureAvailable exBuiltin (exFundEnv 100 20) Ledger.empty 1 2 50).available 1
      = some 30 := by
  refine ⟨by decide, by decide, by decide⟩

/-- C3 (evaluation of the code): on account 1 with escrow 100 and locked 20 the
requests 50 and 30 sum to 80, the true available balance, so no top-up is needed; yet
each call pushes an `AddBalance` message of value 0, two messages in total, and each
call waits for its message. -/
theorem covered_requests_push_two_messages :
    (exCoveredCalls.map (fun c => c.amt)).sum ≤ 100 - 20 ∧
    (∀ c ∈ exCoveredCalls, c.addr = 1) ∧
    (∀ c ∈ exCoveredCalls, 0 ≤ c.amt) ∧
    (runCalls exBuiltin Ledger.empty exCoveredCalls).2
      = [.marketBalance 1, .push (exAddBalance 0), .wait 77,
         .push (exAddBalance 0), .wait 77] ∧
    pushed (runCalls exBuiltin Ledger.empty exCoveredCalls).2
      = [exAddBalance 0, exAddBalance 0] ∧
    ¬ (pushed (runCalls exBuiltin Ledger.empty exCoveredCalls).2).length ≤ 1 ∧
    (runCalls exBuiltin Ledger.empty exCoveredCalls).1 1 = some 0 := by
  refine ⟨by decide, by decide, by decide, by decide, by decide, by decide, by decide⟩

/-- Signed amounts: on account 1 with escrow 100 and locked 20 the requests
100, 100, -120 sum to 80, the true available balance, yet three messages are pushed and
two of them are top-ups of positive value (20 and 100). -/
theorem topups_exceed_one_for_signed_amounts :
    (exSignedCalls.map (fun c => c.amt)).sum ≤ 100 - 20 ∧
    (∀ c ∈ exSignedCalls, c.addr = 1) ∧
    (pushed (runCalls exBuiltin Ledger.empty exSignedCalls).2).map (fun m => m.Value)
      = [20, 100, 0] ∧
    ¬ (pushed (runCalls exBuiltin Ledger.empty exSignedCalls).2).length ≤ 1 ∧
    ¬ ((pushed (runCalls exBuiltin Ledger.empty exSignedCalls).2).filter
        (fun m => decide (0 < m.Value))).length ≤ 1 := by
  refine ⟨by decide, by decide, by decide, by decide, by decide⟩

/-- Values pushed by covered requests: for every sequence of `EnsureAvailable` calls on
one account that starts without a cached entry, with the chain reporting `bal`, whose
requested amounts are non-negative and sum to at most `bal.Escrow - bal.Locked`, every
pushed message carries value 0, so no pushed message has a positive value. -/
theorem covered_requests_submit_no_positive_topup (b : Builtin) (addr : Address)
    (bal : MarketBalance) (l : Ledger) (calls : List Call)
    (hfresh : l addr = none)
    (haddr : ∀ c ∈ calls, c.addr = addr)
    (hbal : ∀ c ∈ calls, c.env.MarketBalance addr = .ok bal)
    (hnn : ∀ c ∈ calls, 0 ≤ c.amt)
    (hsum : (calls.map (fun c => c.amt)).sum ≤ bal.Escrow - bal.Locked) :
    (∀ m ∈ pushed (runCalls b l calls).2, m.Value = 0) ∧
    ((pushed (runCalls b l calls).2).filter (fun m => decide (0 < m.Value))).length ≤ 1 := by
  have hall := runCalls_covered b addr bal calls l (bal.Escrow - bal.Locked)
    (Or.inr ⟨hfresh, rfl⟩) haddr hbal hnn hsum
  refine ⟨hall, ?_⟩
  have hnil : (pushed (runCalls b l calls).2).filter (fun m => decide (0 < m.Value)) = [] := by
    rw [List.filter_eq_nil_iff]
    intro m hm
    simp [hall m hm]
  rw [hnil]
  exact Nat.zero_le _

/-- Instance of the values pushed by covered requests: requests 50 and 30 on account 1
against escrow 100, locked 20. -/
theorem covered_requests_submit_no_positive_topup_witness :
    Ledger.empty 1 = none ∧
    (∀ c ∈ exCoveredCalls, c.addr = 1) ∧
    (∀ c ∈ exCoveredCalls, c.env.MarketBalance 1 = .ok { Escrow := 100, Locked := 20 }) ∧
    (∀ c ∈ exCoveredCalls, 0 ≤ c.amt) ∧
    (exCoveredCalls.map (fun c => c.amt)).sum ≤ 100 - 20 ∧
    (∀ m ∈ pushed (runCalls exBuiltin Ledger.empty exCoveredCalls).2, m.Value = 0) ∧
    ((pushed (runCalls exBuiltin Ledger.empty exCoveredCalls).2).filter
      (fun m => decide (0 < m.Value))).length ≤ 1 :=
  have h1 : ∀ c ∈ exCoveredCalls, c.addr = 1 := by decide
  have h2 : ∀ c ∈ exCoveredCalls,
      c.env.MarketBalance 1 = .ok { Escrow := 100, Locked := 20 } := by
    intro c hc
    simp only [exCoveredCalls, List.mem_cons, List.mem_singleton, List.not_mem_nil,
      or_false] at hc
    rcases hc with rfl | rfl <;> rfl
  have h3 : ∀ c ∈ exCoveredCalls, 0 ≤ c.amt := by decide
  have h4 : (exCoveredCalls.map (fun c => c.amt)).sum ≤ 100 - 20 := by decide
  ⟨rfl, h1, h2, h3, h4,
    covered_requests_submit_no_positive_topup exBuiltin 1 { Escrow := 100, Locked := 20 }
      Ledger.empty exCoveredCalls rfl h1 h2 h3 h4⟩

/-- C4: after any `EnsureAvailable` call that reaches its reservation decision, for
any amount and any prior cached or queried balance, the value stored for the account
is non-negative; hence in every ledger reachable from the empty ledger by a sequence of
calls every entry is non-negative. -/
theorem ledger_entries_nonneg (b : Builtin) :
    (∀ (env : FundEnv) (l : Ledger) (addr wallet : Address) (amt prev : Int),
      (l addr = some prev ∨
        (l addr = none ∧
          ∃ bal, env.MarketBalance addr = .ok bal ∧ prev = bal.Escrow - bal.Locked)) →
      ∃ v, (EnsureAvailable b env l addr wallet amt).available addr = some v ∧ 0 ≤ v) ∧
    (∀ (calls : List Call) (a : Address) (v : Int),
      (runCalls b Ledger.empty calls).1 a = some v → 0 ≤ v) := by
  constructor
  · intro env l addr wallet amt prev hprev
    have h := ensureAvailable_of_prev b env l addr wallet amt prev
      (prevAvail_of_cases env l addr prev hprev)
    refine ⟨(reserve prev amt).2, ?_, reserve_snd_nonneg prev amt⟩
    rw [h.1]
    simp [Ledger.set]
  · intro calls a v h
    exact runCalls_nonneg b calls Ledger.empty (fun a v h => by simp [Ledger.empty] at h) a v h

/-- Witness for C4: a call with cached available 30 and amount 90 stores a
non-negative value, and after the requests 100, 100, -120 on account 1 the entry of
account 1 is 120, which is non-negative. -/
theorem ledger_entries_nonneg_witness :
    (exLedger 30 1 = some 30 ∨
      (exLedger 30 1 = none ∧
        ∃ bal, (exFundEnv 100 20).MarketBalance 1 = .ok bal ∧
          (30 : Int) = bal.Escrow - bal.Locked)) ∧
    (∃ v, (EnsureAvailable exBuiltin (exFundEnv 100 20) (exLedger 30) 1 2 90).available 1
      = some v ∧ 0 ≤ v) ∧
    (runCalls exBuiltin Ledger.empty exSignedCalls).1 1 = some 120 ∧ (0 : Int) ≤ 120 :=
  have h : (runCalls exBuiltin Ledger.empty exSignedCalls).1 1 = some 120 := by decide
  ⟨Or.inl rfl,
    (ledger_entries_nonneg exBuiltin).1 (exFundEnv 100 20) (exLedger 30) 1 2 90 30 (Or.inl rfl),
    h, (ledger_entries_nonneg exBuiltin).2 exSignedCalls 1 120 h⟩

/-! ## Theorems: publish resolver -/

/-- Two proposals compare equal exactly when both have a canonical encoding and the
two encodings are the same bytes. -/
theorem equals_true_iff (dump : ClientDealProposal → Except ExtErr Bytes)
    (a c : ClientDealProposal) :
    Equals dump a c = .ok true ↔ ∃ enc, dump a = .ok enc ∧ dump c = .ok enc := by
  unfold Equals
  cases ha : dump a with
  | error e => simp
  | ok ab =>
    cases hc : dump c with
    | error e => simp
    | ok bb =>
      simp only [Except.ok.injEq, beq_iff_eq, exists_eq_left']
      exact eq_comm

/-- The scan stops at the first entry that compares equal and yields its position. -/
theorem scanDeals_found (dump : ClientDealProposal → Except ExtErr Bytes)
    (p : ClientDealProposal) (deals : List ClientDealProposal) :
    ∀ (k i : Nat) (sd : ClientDealProposal), deals.get? i = some sd →
      Equals dump p sd = .ok true →
      (∀ j sdj, j < i → deals.get? j = some sdj → Equals dump p sdj = .ok false) →
      scanDeals dump p deals k = .ok ((k + i : Nat) : Int) := by
  induction deals with
  | nil => intro k i sd h; simp at h
  | cons d rest ih =>
    intro k i sd hi heq hfirst
    cases i with
    | zero =>
      simp only [List.get?_cons_zero, Option.some.injEq] at hi
      subst hi
      simp [scanDeals, heq]
    | succ i =>
      have h0 : Equals dump p d = .ok false := hfirst 0 d (Nat.succ_pos i) rfl
      simp only [List.get?_cons_succ] at hi
      have hrec := ih (k + 1) i sd hi heq
        (fun j sdj hj hget => hfirst (j + 1) sdj (Nat.succ_lt_succ hj) (by simpa using hget))
      simp only [scanDeals, h0]
      rw [hrec]
      simp [Nat.add_assoc, Nat.add_comm 1 i]

/-- The scan leaves `dealIdx` at `-1` when every comparison is negative. -/
theorem scanDeals_absent (dump : ClientDealProposal → Except ExtErr Bytes)
    (p : ClientDealProposal) (deals : List ClientDealProposal) :
    ∀ k : Nat, (∀ sd ∈ deals, Equals dump p sd = .ok false) →
      scanDeals dump p deals k = .ok (-1) := by
  induction deals with
  | nil => intro k _; rfl
  | cons d rest ih =>
    intro k h
    have h0 := h d (List.mem_cons_self _ _)
    simp only [scanDeals, h0]
    exact ih (k + 1) (fun sd hsd => h sd (List.mem_cons_of_mem _ hsd))

/-- A run that passes validation, finds the proposal at position `i` and gets a
successful receipt returns `ids[i]` whenever `i` is within `ids`. -/
theorem validate_ok_of_lt (b : Builtin) (env : ResolverEnv) (deal : ClientDeal)
    (pubmsg : Message) (deals : List ClientDealProposal) (i : Nat) (ret : MessageReceipt)
    (ids : List DealID) (id : DealID)
    (hmsg : env.GetMessage deal.PublishMessage = .ok pubmsg)
    (hpw : env.GetMinerWorker deal.ClientDealProposal.Proposal.Provider = .ok pubmsg.From)
    (hto : pubmsg.To = b.StorageMarketActorAddr)
    (hmeth : pubmsg.Method = b.PublishStorageDeals)
    (hparams : env.UnmarshalParams pubmsg.Params = .ok deals)
    (hscan : scanDeals env.Dump deal.ClientDealProposal deals 0 = .ok (i : Int))
    (hwait : env.WaitForMessage deal.PublishMessage = .ok ret)
    (hexit : ret.ExitCode = 0)
    (hret : env.UnmarshalReturn ret.Return = .ok ids)
    (hid : ids.get? i = some id) :
    ValidatePublishedDeal b env deal =
      ⟨.ok id, [.getMessage, .getMinerWorker, .unmarshalParams, .waitForMessage,
        .unmarshalReturn, .indexIDs i]⟩ := by
  have hne : ¬ ((i : Int) = -1) := by omega
  unfold ValidatePublishedDeal
  simp only [hmsg, hpw, hto, hmeth, hparams, hscan, hwait, hexit, hret, hne, ne_eq,
    not_true_eq_false, if_false, Int.toNat_ofNat, hid]

/-- C5: when the fetched publish message has a sender other than the worker key of the
provider, or a target other than the storage market actor, or a method other than
`PublishStorageDeals`, `ValidatePublishedDeal` ends with one of the three validation
errors and no identifier, having only fetched the message and the worker key: the
params are not decoded, and the result is the same whatever the params decoder, the
encoder, the wait and the return decoder would answer. -/
theorem validate_rejects_mismatch (b : Builtin) (env : ResolverEnv) (deal : ClientDeal)
    (pubmsg : Message) (pw : Address)
    (hmsg : env.GetMessage deal.PublishMessage = .ok pubmsg)
    (hpw : env.GetMinerWorker deal.ClientDealProposal.Proposal.Provider = .ok pw)
    (hbad : pubmsg.From ≠ pw ∨ pubmsg.To ≠ b.StorageMarketActorAddr ∨
      pubmsg.Method ≠ b.PublishStorageDeals) :
    (∃ e, (ValidatePublishedDeal b env deal).out = .error e ∧ e.isValidation = true) ∧
    (ValidatePublishedDeal b env deal).steps = [.getMessage, .getMinerWorker] ∧
    ResolveStep.unmarshalParams ∉ (ValidatePublishedDeal b env deal).steps ∧
    (∀ (um : Bytes → Except ExtErr (List ClientDealProposal))
       (dump : ClientDealProposal → Except ExtErr Bytes)
       (wait : Cid → Except ExtErr MessageReceipt)
       (ur : Bytes → Except ExtErr (List DealID)),
      ValidatePublishedDeal b
        { env with UnmarshalParams := um, Dump := dump, WaitForMessage := wait
                   UnmarshalReturn := ur } deal
        = ValidatePublishedDeal b env deal) := by
  have key : ∀ env2 : ResolverEnv, env2.GetMessage = env.GetMessage →
      env2.GetMinerWorker = env.GetMinerWorker →
      ValidatePublishedDeal b env2 deal =
        if pubmsg.From ≠ pw then
          ⟨.error (.notPublishedByProvider pubmsg.From
            deal.ClientDealProposal.Proposal.Provider), [.getMessage, .getMinerWorker]⟩
        else if pubmsg.To ≠ b.StorageMarketActorAddr then
          ⟨.error (.wrongTarget pubmsg.To), [.getMessage, .getMinerWorker]⟩
        else
          ⟨.error (.wrongMethod pubmsg.Method), [.getMessage, .getMinerWorker]⟩ := by
    intro env2 h1 h2
    unfold ValidatePublishedDeal
    simp only [h1, h2, hmsg, hpw]
    by_cases hf : pubmsg.From = pw
    · by_cases ht : pubmsg.To = b.StorageMarketActorAddr
      · have hm : pubmsg.Method ≠ b.PublishStorageDeals := by
          rcases hbad with h | h | h
          · exact absurd hf h
          · exact absurd ht h
          · exact h
        simp [hf, ht, hm]
      · simp [hf, ht]
    · simp [hf]
  have h0 := key env rfl rfl
  refine ⟨?_, ?_, ?_, ?_⟩
  · rw [h0]
    split_ifs
    · exact ⟨_, rfl, rfl⟩
    · exact ⟨_, rfl, rfl⟩
    · exact ⟨_, rfl, rfl⟩
  · rw [h0]
    split_ifs <;> rfl
  · rw [h0]
    split_ifs <;> simp
  · intro um dump wait ur
    rw [h0]
    exact key _ rfl rfl

/-- Witness for C5: a publish message that calls method 2 instead of
`PublishStorageDeals`. -/
theorem validate_rejects_mismatch_witness :
    (ValidatePublishedDeal exBuiltin
        (exResolverEnv (exPublishMessage 5 2) [exProposal 1] 0 [10]) (exDeal 1)).out
      = .error (.wrongMethod 2) ∧
    ResolveStep.unmarshalParams ∉ (ValidatePublishedDeal exBuiltin
        (exResolverEnv (exPublishMessage 5 2) [exProposal 1] 0 [10]) (exDeal 1)).steps :=
  have h := validate_rejects_mismatch exBuiltin
    (exResolverEnv (exPublishMessage 5 2) [exProposal 1] 0 [10]) (exDeal 1)
    (exPublishMessage 5 2) 9 rfl rfl (Or.inr (Or.inr (by decide)))
  ⟨by decide, h.2.2.1⟩

/-- C6: for a publish message that passes validation, whose decoded batch has at
position `i` its first entry that compares equal to the proposal of the client, and
whose execution succeeded with an identifier list as long as the batch,
`ValidatePublishedDeal` returns `ids[i]`, wherever in the batch that entry stands. -/
theorem validate_returns_id_at_match (b : Builtin) (env : ResolverEnv) (deal : ClientDeal)
    (pubmsg : Message) (deals : List ClientDealProposal) (i : Nat)
    (sd : ClientDealProposal) (ret : MessageReceipt) (ids : List DealID)
    (hmsg : env.GetMessage deal.PublishMessage = .ok pubmsg)
    (hpw : env.GetMinerWorker deal.ClientDealProposal.Proposal.Provider = .ok pubmsg.From)
    (hto : pubmsg.To = b.StorageMarketActorAddr)
    (hmeth : pubmsg.Method = b.PublishStorageDeals)
    (hparams : env.UnmarshalParams pubmsg.Params = .ok deals)
    (hi : deals.get? i = some sd)
    (heq : Equals env.Dump deal.ClientDealProposal sd = .ok true)
    (hfirst : ∀ j sdj, j < i → deals.get? j = some sdj →
      Equals env.Dump deal.ClientDealProposal sdj = .ok false)
    (hwait : env.WaitForMessage deal.PublishMessage = .ok ret)
    (hexit : ret.ExitCode = 0)
    (hret : env.UnmarshalReturn ret.Return = .ok ids)
    (hlen : ids.length = deals.length) :
    ∃ id, ids.get? i = some id ∧ (ValidatePublishedDeal b env deal).out = .ok id := by
  have hscan := scanDeals_found env.Dump deal.ClientDealProposal deals 0 i sd hi heq hfirst
  rw [Nat.zero_add] at hscan
  have hlt : i < ids.length := by
    rw [hlen]
    exact (List.get?_eq_some.1 hi).1
  refine ⟨ids.get ⟨i, hlt⟩, List.get?_eq_get hlt, ?_⟩
  rw [validate_ok_of_lt b env deal pubmsg deals i ret ids _ hmsg hpw hto hmeth hparams hscan
    hwait hexit hret (List.get?_eq_get hlt)]

/-- Witness for C6: batch `[B, A, C]` (piece cids 2, 1, 3), proposal `C`, identifier
list `[10, 11, 12]`: the identifier returned is the one at index 2. -/
theorem validate_returns_id_at_match_witness :
    [exProposal 2, exProposal 1, exProposal 3].get? 2 = some (exProposal 3) ∧
    (∃ id, [10, 11, 12].get? 2 = some id ∧
      (ValidatePublishedDeal exBuiltin
        (exResolverEnv (exPublishMessage 5 4) [exProposal 2, exProposal 1, exProposal 3] 0
          [10, 11, 12]) (exDeal 3)).out = .ok id) ∧
    (ValidatePublishedDeal exBuiltin
        (exResolverEnv (exPublishMessage 5 4) [exProposal 2, exProposal 1, exProposal 3] 0
          [10, 11, 12]) (exDeal 3)).out = .ok 12 :=
  have hfirst : ∀ j sdj, j < 2 →
      [exProposal 2, exProposal 1, exProposal 3].get? j = some sdj →
      Equals (exResolverEnv (exPublishMessage 5 4)
        [exProposal 2, exProposal 1, exProposal 3] 0 [10, 11, 12]).Dump
        (exDeal 3).ClientDealProposal sdj = .ok false := by
    intro j sdj hj hget
    interval_cases j
    · simp only [List.get?_cons_zero, Option.some.injEq] at hget
      subst hget
      rfl
    · simp only [List.get?_cons_succ, List.get?_cons_zero, Option.some.injEq] at hget
      subst hget
      rfl
  ⟨rfl,
    validate_returns_id_at_match exBuiltin
      (exResolverEnv (exPublishMessage 5 4) [exProposal 2, exProposal 1, exProposal 3] 0
        [10, 11, 12]) (exDeal 3) (exPublishMessage 5 4)
      [exProposal 2, exProposal 1, exProposal 3] 2 (exProposal 3)
      { ExitCode := 0, Return := [] } [10, 11, 12] rfl rfl rfl rfl rfl rfl rfl hfirst
      rfl rfl rfl rfl,
    by decide⟩

/-- Evaluation: batch `[B, A]`, proposal `A` and the one-element identifier list `[7]`:
the index expression `res.IDs[dealIdx]` is out of range and the call panics. -/
theorem validate_short_id_list_panics :
    (ValidatePublishedDeal exBuiltin
      (exResolverEnv (exPublishMessage 5 4) [exProposal 2, exProposal 1] 0 [7])
      (exDeal 1)).out = .panic := by
  decide

/-- C7 (counterexample): the batch decodes to one proposal and the receipt to the two
identifiers `[7, 8]`; the lengths differ, yet `ValidatePublishedDeal` returns
identifier 7 with no error. -/
theorem validate_accepts_longer_id_list :
    [exProposal 1].length ≠ [7, 8].length ∧
    (ValidatePublishedDeal exBuiltin
      (exResolverEnv (exPublishMessage 5 4) [exProposal 1] 0 [7, 8]) (exDeal 1)).out
      = .ok 7 := by
  refine ⟨by decide, by decide⟩

/-- C7 (amended): `ValidatePublishedDeal` does not compare the length of the decoded
identifier list with the length of the batch.  On a run that passes validation, finds
the proposal first at position `i` and gets a successful receipt, it returns `ids[i]`
with no error whenever `i` is within the identifier list, also when the two lengths
differ; and when the two lengths are equal, `i` is within the list. -/
theorem validate_indexes_without_length_check (b : Builtin) (env : ResolverEnv)
    (deal : ClientDeal) (pubmsg : Message) (deals : List ClientDealProposal) (i : Nat)
    (sd : ClientDealProposal) (ret : MessageReceipt) (ids : List DealID)
    (hmsg : env.GetMessage deal.PublishMessage = .ok pubmsg)
    (hpw : env.GetMinerWorker deal.ClientDealProposal.Proposal.Provider = .ok pubmsg.From)
    (hto : pubmsg.To = b.StorageMarketActorAddr)
    (hmeth : pubmsg.Method = b.PublishStorageDeals)
    (hparams : env.UnmarshalParams pubmsg.Params = .ok deals)
    (hi : deals.get? i = some sd)
    (heq : Equals env.Dump deal.ClientDealProposal sd = .ok true)
    (hfirst : ∀ j sdj, j < i → deals.get? j = some sdj →
      Equals env.Dump deal.ClientDealProposal sdj = .ok false)
    (hwait : env.WaitForMessage deal.PublishMessage = .ok ret)
    (hexit : ret.ExitCode = 0)
    (hret : env.UnmarshalReturn ret.Return = .ok ids) :
    (∀ id, ids.get? i = some id → (ValidatePublishedDeal b env deal).out = .ok id) ∧
    (ids.length = deals.length → i < ids.length) := by
  have hscan := scanDeals_found env.Dump deal.ClientDealProposal deals 0 i sd hi heq hfirst
  rw [Nat.zero_add] at hscan
  constructor
  · intro id hid
    rw [validate_ok_of_lt b env deal pubmsg deals i ret ids id hmsg hpw hto hmeth hparams
      hscan hwait hexit hret hid]
  · intro hlen
    rw [hlen]
    exact (List.get?_eq_some.1 hi).1

/-- Witness for C7 (amended): batch of one proposal, identifier list `[7, 8]`. -/
theorem validate_indexes_without_length_check_witness :
    [exProposal 1].get? 0 = some (exProposal 1) ∧
    [7, 8].get? 0 = some 7 ∧
    (ValidatePublishedDeal exBuiltin
      (exResolverEnv (exPublishMessage 5 4) [exProposal 1] 0 [7, 8]) (exDeal 1)).out
      = .ok 7 :=
  ⟨rfl, rfl,
    (validate_indexes_without_length_check exBuiltin
      (exResolverEnv (exPublishMessage 5 4) [exProposal 1] 0 [7, 8]) (exDeal 1)
      (exPublishMessage 5 4) [exProposal 1] 0 (exProposal 1)
      { ExitCode := 0, Return := [] } [7, 8] rfl rfl rfl rfl rfl rfl rfl
      (fun j _ hj _ => absurd hj (Nat.not_lt_zero j)) rfl rfl rfl).1 7 rfl⟩

/-- C8: for a publish message that passes validation and whose decoded batch has no
entry that compares equal to the proposal of the client, `ValidatePublishedDeal` ends
with the not-in-batch error and no identifier; it does not wait for the execution
result, and the outcome is the same whatever the wait and the return decoder would
answer. -/
theorem validate_not_in_batch (b : Builtin) (env : ResolverEnv) (deal : ClientDeal)
    (pubmsg : Message) (deals : List ClientDealProposal)
    (hmsg : env.GetMessage deal.PublishMessage = .ok pubmsg)
    (hpw : env.GetMinerWorker deal.ClientDealProposal.Proposal.Provider = .ok pubmsg.From)
    (hto : pubmsg.To = b.StorageMarketActorAddr)
    (hmeth : pubmsg.Method = b.PublishStorageDeals)
    (hparams : env.UnmarshalParams pubmsg.Params = .ok deals)
    (hnone : ∀ sd ∈ deals, Equals env.Dump deal.ClientDealProposal sd = .ok false) :
    (ValidatePublishedDeal b env deal).out = .error (.notInPublish deal.PublishMessage) ∧
    ResolveStep.waitForMessage ∉ (ValidatePublishedDeal b env deal).steps ∧
    (∀ (wait : Cid → Except ExtErr MessageReceipt) (ur : Bytes → Except ExtErr (List DealID)),
      ValidatePublishedDeal b { env with WaitForMessage := wait, UnmarshalReturn := ur } deal
        = ValidatePublishedDeal b env deal) := by
  have hscan := scanDeals_absent env.Dump deal.ClientDealProposal deals 0 hnone
  have key : ∀ env2 : ResolverEnv, env2.GetMessage = env.GetMessage →
      env2.GetMinerWorker = env.GetMinerWorker →
      env2.UnmarshalParams = env.UnmarshalParams → env2.Dump = env.Dump →
      ValidatePublishedDeal b env2 deal =
        ⟨.error (.notInPublish deal.PublishMessage),
          [.getMessage, .getMinerWorker, .unmarshalParams]⟩ := by
    intro env2 h1 h2 h3 h4
    unfold ValidatePublishedDeal
    simp only [h1, h2, h3, h4, hmsg, hpw, hto, hmeth, hparams, hscan, ne_eq,
      not_true_eq_false, if_false, if_true]
  refine ⟨?_, ?_, ?_⟩
  · rw [key env rfl rfl rfl rfl]
  · rw [key env rfl rfl rfl rfl]
    simp
  · intro wait ur
    rw [key env rfl rfl rfl rfl]
    exact key _ rfl rfl rfl rfl

/-- Witness for C8: batch `[B, A]` (piece cids 2, 1) and a proposal with piece cid 3. -/
theorem validate_not_in_batch_witness :
    (∀ sd ∈ [exProposal 2, exProposal 1],
      Equals (exResolverEnv (exPublishMessage 5 4) [exProposal 2, exProposal 1] 0
        [10, 11]).Dump (exDeal 3).ClientDealProposal sd = .ok false) ∧
    (ValidatePublishedDeal exBuiltin
      (exResolverEnv (exPublishMessage 5 4) [exProposal 2, exProposal 1] 0 [10, 11])
      (exDeal 3)).out = .error (.notInPublish 55) :=
  have hnone : ∀ sd ∈ [exProposal 2, exProposal 1],
      Equals (exResolverEnv (exPublishMessage 5 4) [exProposal 2, exProposal 1] 0
        [10, 11]).Dump (exDeal 3).ClientDealProposal sd = .ok false := by
    intro sd hsd
    simp only [List.mem_cons, List.mem_singleton, List.not_mem_nil, or_false] at hsd
    rcases hsd with rfl | rfl <;> rfl
  ⟨hnone,
    (validate_not_in_batch exBuiltin
      (exResolverEnv (exPublishMessage 5 4) [exProposal 2, exProposal 1] 0 [10, 11])
      (exDeal 3) (exPublishMessage 5 4) [exProposal 2, exProposal 1] rfl rfl rfl rfl rfl
      hnone).1⟩

/-- C9: for a publish message that passes validation and whose batch contains the
proposal, a receipt with a non-zero exit code makes `ValidatePublishedDeal` end with
the publish-failed error and no identifier; the return value of the receipt is neither
decoded nor indexed, and the outcome is the same whatever the return decoder would
answer. -/
theorem validate_publish_failed (b : Builtin) (env : ResolverEnv) (deal : ClientDeal)
    (pubmsg : Message) (deals : List ClientDealProposal) (i : Nat)
    (sd : ClientDealProposal) (ret : MessageReceipt)
    (hmsg : env.GetMessage deal.PublishMessage = .ok pubmsg)
    (hpw : env.GetMinerWorker deal.ClientDealProposal.Proposal.Provider = .ok pubmsg.From)
    (hto : pubmsg.To = b.StorageMarketActorAddr)
    (hmeth : pubmsg.Method = b.PublishStorageDeals)
    (hparams : env.UnmarshalParams pubmsg.Params = .ok deals)
    (hi : deals.get? i = some sd)
    (heq : Equals env.Dump deal.ClientDealProposal sd = .ok true)
    (hfirst : ∀ j sdj, j < i → deals.get? j = some sdj →
      Equals env.Dump deal.ClientDealProposal sdj = .ok false)
    (hwait : env.WaitForMessage deal.PublishMessage = .ok ret)
    (hexit : ret.ExitCode ≠ 0) :
    (ValidatePublishedDeal b env deal).out = .error (.publishFailed ret.ExitCode) ∧
    ResolveStep.unmarshalReturn ∉ (ValidatePublishedDeal b env deal).steps ∧
    (∀ k, ResolveStep.indexIDs k ∉ (ValidatePublishedDeal b env deal).steps) ∧
    (∀ ur : Bytes → Except ExtErr (List DealID),
      ValidatePublishedDeal b { env with UnmarshalReturn := ur } deal
        = ValidatePublishedDeal b env deal) := by
  have hscan := scanDeals_found env.Dump deal.ClientDealProposal deals 0 i sd hi heq hfirst
  rw [Nat.zero_add] at hscan
  have hne : ¬ ((i : Int) = -1) := by omega
  have key : ∀ env2 : ResolverEnv, env2.GetMessage = env.GetMessage →
      env2.GetMinerWorker = env.GetMinerWorker →
      env2.UnmarshalParams = env.UnmarshalParams → env2.Dump = env.Dump →
      env2.WaitForMessage = env.WaitForMessage →
      ValidatePublishedDeal b env2 deal =
        ⟨.error (.publishFailed ret.ExitCode),
          [.getMessage, .getMinerWorker, .unmarshalParams, .waitForMessage]⟩ := by
    intro env2 h1 h2 h3 h4 h5
    unfold ValidatePublishedDeal
    simp only [h1, h2, h3, h4, h5, hmsg, hpw, hto, hmeth, hparams, hscan, hwait, hne, hexit,
      ne_eq, not_true_eq_false, not_false_eq_true, if_false, if_true]
  refine ⟨?_, ?_, ?_, ?_⟩
  · rw [key env rfl rfl rfl rfl rfl]
  · rw [key env rfl rfl rfl rfl rfl]
    simp
  · intro k
    rw [key env rfl rfl rfl rfl rfl]
    simp
  · intro ur
    rw [key env rfl rfl rfl rfl rfl]
    exact key _ rfl rfl rfl rfl rfl

/-- Witness for C9: batch `[B, A]`, proposal `A`, receipt with exit code 16. -/
theorem validate_publish_failed_witness :
    [exProposal 2, exProposal 1].get? 1 = some (exProposal 1) ∧
    (16 : Int) ≠ 0 ∧
    (ValidatePublishedDeal exBuiltin
      (exResolverEnv (exPublishMessage 5 4) [exProposal 2, exProposal 1] 16 [10, 11])
      (exDeal 1)).out = .error (.publishFailed 16) :=
  have hfirst : ∀ j sdj, j < 1 → [exProposal 2, exProposal 1].get? j = some sdj →
      Equals (exResolverEnv (exPublishMessage 5 4) [exProposal 2, exProposal 1] 16
        [10, 11]).Dump (exDeal 1).ClientDealProposal sdj = .ok false := by
    intro j sdj hj hget
    interval_cases j
    simp only [List.get?_cons_zero, Option.some.injEq] at hget
    subst hget
    rfl
  ⟨rfl, by decide,
    (validate_publish_failed exBuiltin
      (exResolverEnv (exPublishMessage 5 4) [exProposal 2, exProposal 1] 16 [10, 11])
      (exDeal 1) (exPublishMessage 5 4) [exProposal 2, exProposal 1] 1 (exProposal 1)
      { ExitCode := 16, Return := [] } rfl rfl rfl rfl rfl rfl rfl hfirst rfl
      (by decide)).1⟩

/-! ## Theorems: commitment watch -/

/-- C10: at a tipset where the deal lookup succeeds, `checkFunc` invokes the callback
exactly once, with a nil error, and returns done = true, more = false when
`SectorStartEpoch` is positive; otherwise it does not invoke the callback and returns
done = false, more = true.  In both cases the returned error is nil. -/
theorem checkFunc_already_satisfied
    (GetStorageDeal : DealID → TipSet → Except ExtErr OnChainDeal) (dealId : DealID)
    (ts : TipSet) (sd : OnChainDeal) (hsd : GetStorageDeal dealId ts = .ok sd) :
    (sd.State.SectorStartEpoch > 0 →
      checkFunc GetStorageDeal dealId ts
        = { done := true, more := false, err := none, cbCalls := [none] }) ∧
    (sd.State.SectorStartEpoch ≤ 0 →
      checkFunc GetStorageDeal dealId ts
        = { done := false, more := true, err := none, cbCalls := [] }) := by
  unfold checkFunc
  simp only [hsd]
  constructor
  · intro h
    simp only [h, if_true]
  · intro h
    have : ¬ sd.State.SectorStartEpoch > 0 := by omega
    simp only [this, if_false]

/-- Witness for C10: a deal with `SectorStartEpoch` 1200 and one with -1. -/
theorem checkFunc_already_satisfied_witness :
    checkFunc (exGetStorageDeal 1200) 4 1
      = { done := true, more := false, err := none, cbCalls := [none] } ∧
    checkFunc (exGetStorageDeal (-1)) 4 1
      = { done := false, more := true, err := none, cbCalls := [] } :=
  ⟨(checkFunc_already_satisfied (exGetStorageDeal 1200) 4 1 _ rfl).1 (by decide),
    (checkFunc_already_satisfied (exGetStorageDeal (-1)) 4 1 _ rfl).2 (by decide)⟩

/-! ## Theorems: escrow ledger, failure paths -/

/-- A call that has a starting balance `prev` is `pushAndWait` on the updated map. -/
theorem ensureAvailable_eq_pushAndWait (b : Builtin) (env : FundEnv) (l : Ledger)
    (addr wallet : Address) (amt prev : Int) (hprev : prevAvail env l addr = some prev) :
    ∃ pre, EnsureAvailable b env l addr wallet amt =
      pushAndWait b env (l.set addr (reserve prev amt).2) pre addr wallet
        (reserve prev amt).1 := by
  unfold prevAvail at hprev
  unfold EnsureAvailable
  cases hl : l addr with
  | some a0 =>
    rw [hl] at hprev
    simp only [Option.some.injEq] at hprev
    subst hprev
    exact ⟨[], rfl⟩
  | none =>
    rw [hl] at hprev
    cases hq : env.MarketBalance addr with
    | error e => rw [hq] at hprev; simp at hprev
    | ok bal =>
      rw [hq] at hprev
      simp only [Option.some.injEq] at hprev
      subst hprev
      exact ⟨[.marketBalance addr], rfl⟩

/-- The error `pushAndWait` returns when the push fails, the wait fails, or the
receipt has a non-zero exit code. -/
theorem pushAndWait_err (b : Builtin) (env : FundEnv) (l : Ledger) (pre : List FundEffect)
    (addr wallet : Address) (toAdd : Int) (params : Bytes)
    (hser : env.SerializeParams addr = .ok params) :
    (∀ e, env.MpoolPushMessage (addBalanceMessage b wallet toAdd params) = .error e →
      (pushAndWait b env l pre addr wallet toAdd).err = some (.ext e)) ∧
    (∀ c e, env.MpoolPushMessage (addBalanceMessage b wallet toAdd params) = .ok c →
      env.WaitForMessage c = .error e →
      (pushAndWait b env l pre addr wallet toAdd).err = some (.waitingForAddBalance e)) ∧
    (∀ c r, env.MpoolPushMessage (addBalanceMessage b wallet toAdd params) = .ok c →
      env.WaitForMessage c = .ok r → r.ExitCode ≠ 0 →
      (pushAndWait b env l pre addr wallet toAdd).err
        = some (.addBalanceFailed r.ExitCode)) := by
  refine ⟨?_, ?_, ?_⟩
  · intro e h
    unfold pushAndWait
    simp only [hser, h]
  · intro c e h1 h2
    unfold pushAndWait
    simp only [hser, h1, h2]
  · intro c r h1 h2 h3
    unfold pushAndWait
    simp only [hser, h1, h2, h3, ne_eq, not_false_eq_true, if_true]

/-- C16: for every ledger state and every account without a cached entry, when the
chain balance query fails `EnsureAvailable` returns that error, pushes no message (its
only call is the query) and leaves the ledger map as it was: no entry is created and
no other entry is modified. -/
theorem ensureAvailable_query_failure (b : Builtin) (env : FundEnv) (l : Ledger)
    (addr wallet : Address) (amt : Int) (e : ExtErr)
    (hl : l addr = none) (hq : env.MarketBalance addr = .error e) :
    (EnsureAvailable b env l addr wallet amt).err = some (.ext e) ∧
    pushed (EnsureAvailable b env l addr wallet amt).effects = [] ∧
    (EnsureAvailable b env l addr wallet amt).effects = [.marketBalance addr] ∧
    (EnsureAvailable b env l addr wallet amt).available = l ∧
    (EnsureAvailable b env l addr wallet amt).available addr = none := by
  have h : EnsureAvailable b env l addr wallet amt
      = { available := l, effects := [.marketBalance addr], err := some (.ext e) } := by
    unfold EnsureAvailable
    simp only [hl, hq]
  rw [h]
  exact ⟨rfl, rfl, rfl, rfl, hl⟩

/-- Witness for C16: account 1 on the empty ledger, the balance query fails with
error 21. -/
theorem ensureAvailable_query_failure_witness :
    Ledger.empty 1 = none ∧
    (EnsureAvailable exBuiltin
      (exFundEnvWith (.error 21) (.ok 77) (.ok { ExitCode := 0, Return := [] }))
      Ledger.empty 1 2 50).err = some (.ext 21) ∧
    (EnsureAvailable exBuiltin
      (exFundEnvWith (.error 21) (.ok 77) (.ok { ExitCode := 0, Return := [] }))
      Ledger.empty 1 2 50).available = Ledger.empty :=
  have h := ensureAvailable_query_failure exBuiltin
    (exFundEnvWith (.error 21) (.ok 77) (.ok { ExitCode := 0, Return := [] }))
    Ledger.empty 1 2 50 21 rfl rfl
  ⟨rfl, h.1, h.2.2.2.1⟩

/-- C17: when the parameters serialize and the push fails, or the wait for inclusion
fails, or the receipt has a non-zero exit code, `EnsureAvailable` returns an error, yet
the cached available of the account is the value of the decision,
`max 0 (prev - amt)`, not the value before the call; the entries of all other
accounts are unchanged. -/
theorem ensureAvailable_no_rollback (b : Builtin) (env : FundEnv) (l : Ledger)
    (addr wallet : Address) (amt prev : Int) (params : Bytes)
    (hprev : l addr = some prev ∨
      (l addr = none ∧ ∃ bal, env.MarketBalance addr = .ok bal ∧ prev = bal.Escrow - bal.Locked))
    (hser : env.SerializeParams addr = .ok params)
    (hfail :
      (∃ e, env.MpoolPushMessage (addBalanceMessage b wallet (max 0 (amt - prev)) params)
        = .error e) ∨
      (∃ c e, env.MpoolPushMessage (addBalanceMessage b wallet (max 0 (amt - prev)) params)
        = .ok c ∧ env.WaitForMessage c = .error e) ∨
      (∃ c r, env.MpoolPushMessage (addBalanceMessage b wallet (max 0 (amt - prev)) params)
        = .ok c ∧ env.WaitForMessage c = .ok r ∧ r.ExitCode ≠ 0)) :
    (∃ err, (EnsureAvailable b env l addr wallet amt).err = some err) ∧
    (EnsureAvailable b env l addr wallet amt).available addr = some (max 0 (prev - amt)) ∧
    (∀ a, a ≠ addr → (EnsureAvailable b env l addr wallet amt).available a = l a) := by
  have hp := prevAvail_of_cases env l addr prev hprev
  obtain ⟨pre, hpre⟩ := ensureAvailable_eq_pushAndWait b env l addr wallet amt prev hp
  have herr := pushAndWait_err b env (l.set addr (reserve prev amt).2) pre addr wallet
    (reserve prev amt).1 params hser
  rw [reserve_fst] at herr
  rw [reserve_fst] at hpre
  refine ⟨?_, ?_, ?_⟩
  · rw [hpre]
    rcases hfail with ⟨e, h⟩ | ⟨c, e, h1, h2⟩ | ⟨c, r, h1, h2, h3⟩
    · exact ⟨_, herr.1 e h⟩
    · exact ⟨_, herr.2.1 c e h1 h2⟩
    · exact ⟨_, herr.2.2 c r h1 h2 h3⟩
  · rw [hpre, pushAndWait_available, reserve_snd]
    simp [Ledger.set]
  · intro a ha
    rw [hpre, pushAndWait_available]
    simp [Ledger.set, ha]

/-- Witness for C17: cached available 30, amount 90, and the pool rejects the top-up
with error 31: the call fails and the cached available is 0. -/
theorem ensureAvailable_no_rollback_witness :
    (EnsureAvailable exBuiltin
      (exFundEnvWith (.ok { Escrow := 100, Locked := 20 }) (.error 31)
        (.ok { ExitCode := 0, Return := [] })) (exLedger 30) 1 2 90).err = some (.ext 31) ∧
    (EnsureAvailable exBuiltin
      (exFundEnvWith (.ok { Escrow := 100, Locked := 20 }) (.error 31)
        (.ok { ExitCode := 0, Return := [] })) (exLedger 30) 1 2 90).available 1
      = some (max 0 (30 - 90)) ∧
    max (0 : Int) (30 - 90) = 0 :=
  have h := ensureAvailable_no_rollback exBuiltin
    (exFundEnvWith (.ok { Escrow := 100, Locked := 20 }) (.error 31)
      (.ok { ExitCode := 0, Return := [] })) (exLedger 30) 1 2 90 30 [1]
    (Or.inl rfl) rfl (Or.inl ⟨31, rfl⟩)
  ⟨by decide, h.2.1, by decide⟩

/-! ## Theorems: commitment watch, confirmation handler -/

/-- C13 (evaluation of the code): called with no message (the max-wait budget is
exhausted), the handler returns more = false and no error but does not invoke the
callback at all, so no signal reaches the caller. -/
theorem called_timeout_fires_nothing :
    (called (exGetStorageDeal 1200) 4 none none 1 1000).cbCalls = [] ∧
    (called (exGetStorageDeal 1200) 4 none none 1 1000).err = none ∧
    (called (exGetStorageDeal 1200) 4 none none 1 1000).more = false := by
  refine ⟨by decide, by decide, by decide⟩

/-- The timeout branch of the handler for any deal lookup, tipset and height: called
with no message it returns more = false and no error, and the list of callback
invocations is empty. -/
theorem called_timeout (GetStorageDeal : DealID → TipSet → Except ExtErr OnChainDeal)
    (dealId : DealID) (mrec : Option MessageReceipt) (ts : TipSet) (curH : Int) :
    called GetStorageDeal dealId none mrec ts curH
      = { more := false, err := none, cbCalls := [] } := by
  rfl

/-- C14: when the confirmation handler is called with a matched message at a tipset
where the deal lookup succeeds, then with `SectorStartEpoch` at least 1 the callback is
invoked exactly once, with a nil error, and the handler returns more = false and no
error; with `SectorStartEpoch` below 1 the handler returns an error, the callback is
invoked exactly once, with an error, and is never invoked with nil. -/
theorem called_confirmation (GetStorageDeal : DealID → TipSet → Except ExtErr OnChainDeal)
    (dealId : DealID) (msg : Message) (mrec : Option MessageReceipt) (ts : TipSet)
    (curH : Int) (sd : OnChainDeal) (hsd : GetStorageDeal dealId ts = .ok sd) :
    (sd.State.SectorStartEpoch ≥ 1 →
      called GetStorageDeal dealId (some msg) mrec ts curH
        = { more := false, err := none, cbCalls := [none] }) ∧
    (sd.State.SectorStartEpoch < 1 →
      (called GetStorageDeal dealId (some msg) mrec ts curH).more = false ∧
      (called GetStorageDeal dealId (some msg) mrec ts curH).err
        = some (.dealNotActive dealId) ∧
      (called GetStorageDeal dealId (some msg) mrec ts curH).cbCalls
        = [some (.handlingAppliedEvent (.dealNotActive dealId))] ∧
      none ∉ (called GetStorageDeal dealId (some msg) mrec ts curH).cbCalls) := by
  constructor
  · intro h
    have hn : ¬ sd.State.SectorStartEpoch < 1 := by omega
    simp only [called, calledBody, hsd, hn, if_false]
  · intro h
    simp only [called, calledBody, hsd, h, if_true, List.nil_append, List.mem_singleton]
    exact ⟨trivial, trivial, trivial, by simp⟩

/-- Witness for C14: a deal with `SectorStartEpoch` 1200 and one with 0. -/
theorem called_confirmation_witness :
    called (exGetStorageDeal 1200) 4 (some (exProveCommit 3 7)) none 1 1000
      = { more := false, err := none, cbCalls := [none] } ∧
    (called (exGetStorageDeal 0) 4 (some (exProveCommit 3 7)) none 1 1000).cbCalls
      = [some (.handlingAppliedEvent (.dealNotActive 4))] :=
  ⟨(called_confirmation (exGetStorageDeal 1200) 4 (exProveCommit 3 7) none 1 1000 _ rfl).1
      (by decide),
    ((called_confirmation (exGetStorageDeal 0) 4 (exProveCommit 3 7) none 1 1000 _ rfl).2
      (by decide)).2.2.1⟩

/-- C15 (counterexample): the deal lookup fails in the already-satisfied check; the
check returns the error but does not invoke the callback. -/
theorem checkFunc_lookup_failure_skips_callback :
    (checkFunc exFailingLookup 4 1).err = some (.dealLookupFailed 13) ∧
    (checkFunc exFailingLookup 4 1).cbCalls = [] := by
  refine ⟨by decide, by decide⟩

/-- C15 (amended): when the deal lookup fails in the confirmation handler (called with
a message), the callback is invoked exactly once, with a non-nil error, and the handler
returns that lookup error; when it fails in the already-satisfied check, the check
returns the lookup error with done = false and more = false and does not invoke the
callback. -/
theorem lookup_failure_reporting
    (GetStorageDeal : DealID → TipSet → Except ExtErr OnChainDeal) (dealId : DealID)
    (msg : Message) (mrec : Option MessageReceipt) (ts : TipSet) (curH : Int) (e : ExtErr)
    (hfail : GetStorageDeal dealId ts = .error e) :
    called GetStorageDeal dealId (some msg) mrec ts curH
      = { more := false, err := some (.dealLookupFailed e)
          cbCalls := [some (.handlingAppliedEvent (.dealLookupFailed e))] } ∧
    checkFunc GetStorageDeal dealId ts
      = { done := false, more := false, err := some (.dealLookupFailed e), cbCalls := [] } := by
  constructor
  · simp only [called, calledBody, hfail, List.nil_append]
  · simp only [checkFunc, hfail]

/-- Witness for C15 (amended): a lookup that fails with error 13. -/
theorem lookup_failure_reporting_witness :
    (called exFailingLookup 4 (some (exProveCommit 3 7)) none 1 1000).cbCalls
      = [some (.handlingAppliedEvent (.dealLookupFailed 13))] ∧
    (checkFunc exFailingLookup 4 1).cbCalls = [] :=
  have h := lookup_failure_reporting exFailingLookup 4 (exProveCommit 3 7) none 1 1000 13 rfl
  ⟨by rw [h.1], by rw [h.2]⟩

/-! ## Theorems: commitment watch, match predicate -/

/-- The shared variables after one `matchEvent` call: set by a phase-one message,
otherwise left as they were. -/
theorem matchEvent_state (b : Builtin) (codec : WatchCodec) (provider : Address)
    (dealId : DealID) (st : MatchState) (m : Message) :
    (matchEvent b codec provider dealId st m).1 =
      match phaseOneSector b codec provider dealId m with
      | some s => { sectorNumber := s, sectorFound := true }
      | none => st := by
  unfold matchEvent phaseOneSector
  by_cases hto : m.To = provider
  · by_cases hm : m.Method = b.PreCommitSector
    · simp only [hto, hm, ne_eq, not_true_eq_false, if_false, if_true, and_self]
      cases hdec : codec.UnmarshalPreCommit m.Params with
      | error e => rfl
      | ok info =>
        by_cases hin : dealId ∈ info.DealIDs
        · have hany : info.DealIDs.any (fun did => did == dealId) = true := by
            rw [List.any_eq_true]
            exact ⟨dealId, hin, by simp⟩
          simp only [hany, hin, if_true]
        · have hany : ¬ info.DealIDs.any (fun did => did == dealId) = true := by
            rw [List.any_eq_true]
            rintro ⟨x, hx, hxe⟩
            have : x = dealId := by simpa using hxe
            exact hin (this ▸ hx)
          simp [hany, hin]
    · simp only [hto, hm, ne_eq, not_true_eq_false, if_false, and_false]
      by_cases hp : m.Method = b.ProveCommitSector
      · simp only [hp, if_true]
        cases hdec : codec.UnmarshalProveCommit m.Params with
        | error e => rfl
        | ok params =>
          simp only []
          split_ifs <;> rfl
      · simp only [hp, if_false]
  · simp only [hto, ne_eq, not_false_eq_true, if_true, false_and, if_false]

theorem lastPhaseOneSector_cons (b : Builtin) (codec : WatchCodec) (provider : Address)
    (dealId : DealID) (m : Message) (rest : List Message) :
    lastPhaseOneSector b codec provider dealId (m :: rest) =
      (lastPhaseOneSector b codec provider dealId rest).or
        (phaseOneSector b codec provider dealId m) := by
  unfold lastPhaseOneSector
  cases h : phaseOneSector b codec provider dealId m with
  | none =>
    rw [List.filterMap_cons_none h]
    simp
  | some s =>
    rw [List.filterMap_cons_some h]
    have : s :: List.filterMap (phaseOneSector b codec provider dealId) rest
        = [s] ++ List.filterMap (phaseOneSector b codec provider dealId) rest := rfl
    rw [this, List.getLast?_append]
    rfl

/-- The shared variables after a feed: the sector of the most recent phase-one
message, when there is one, and otherwise the state the feed started from. -/
theorem feed_eq (b : Builtin) (codec : WatchCodec) (provider : Address) (dealId : DealID)
    (seen : List Message) :
    ∀ st : MatchState, feed b codec provider dealId st seen =
      match lastPhaseOneSector b codec provider dealId seen with
      | some s => { sectorNumber := s, sectorFound := true }
      | none => st := by
  induction seen with
  | nil => intro st; rfl
  | cons m rest ih =>
    intro st
    simp only [feed]
    rw [ih, lastPhaseOneSector_cons, matchEvent_state]
    cases lastPhaseOneSector b codec provider dealId rest with
    | some s => rfl
    | none =>
      cases phaseOneSector b codec provider dealId m <;> rfl

/-- When `matchEvent` reports a match, in terms of the shared variables. -/
theorem matchEvent_true_iff (b : Builtin) (codec : WatchCodec) (provider : Address)
    (dealId : DealID) (hd : b.PreCommitSector ≠ b.ProveCommitSector) (st : MatchState)
    (m : Message) :
    (matchEvent b codec provider dealId st m).2 = .ok true ↔
      m.To = provider ∧ m.Method = b.ProveCommitSector ∧
      ∃ p, codec.UnmarshalProveCommit m.Params = .ok p ∧ st.sectorFound = true ∧
        p.SectorNumber = st.sectorNumber := by
  unfold matchEvent
  by_cases h1 : m.To = provider
  · rw [if_neg (not_not.2 h1)]
    by_cases h2 : m.Method = b.PreCommitSector
    · rw [if_pos h2]
      constructor
      · intro h
        cases hdec : codec.UnmarshalPreCommit m.Params with
        | error e => rw [hdec] at h; simp at h
        | ok info =>
          rw [hdec] at h
          by_cases hany : info.DealIDs.any (fun did => did == dealId) = true
          · simp [hany] at h
          · simp [hany] at h
      · rintro ⟨_, h, _⟩
        exact absurd (h2.symm.trans h) hd
    · rw [if_neg h2]
      by_cases h3 : m.Method = b.ProveCommitSector
      · rw [if_pos h3]
        cases hdec : codec.UnmarshalProveCommit m.Params with
        | error e => simp
        | ok params =>
          cases hf : st.sectorFound with
          | false => simp [hf]
          | true =>
            by_cases hs : params.SectorNumber = st.sectorNumber
            · simp [hs, h1, h3, hf]
            · simp [hs, hf]
      · rw [if_neg h3]
        constructor
        · intro h
          simp at h
        · rintro ⟨_, h, _⟩
          exact absurd h h3
  · rw [if_pos h1]
    constructor
    · intro h
      simp at h
    · rintro ⟨h, _⟩
      exact absurd h h1

/-- C11: after `matchEvent` has been fed the messages `seen`, it reports the next
message `m` as a match exactly when `m` is addressed to the provider, its method is
`ProveCommitSector`, and its sector number is the sector number of the most recent
message among `seen` that was a `PreCommitSector` addressed to the provider naming
the watched deal; such a message exists exactly when some message in `seen` is one.
A `PreCommitSector` message, a message to another address, and a message seen before
any phase-one message are never reported as a match.  The two method numbers are
distinct constants. -/
theorem matchEvent_two_phase (b : Builtin) (codec : WatchCodec) (provider : Address)
    (dealId : DealID) (hd : b.PreCommitSector ≠ b.ProveCommitSector)
    (seen : List Message) (m : Message) :
    ((matchEvent b codec provider dealId
        (feed b codec provider dealId MatchState.init seen) m).2 = .ok true ↔
      m.To = provider ∧ m.Method = b.ProveCommitSector ∧
      ∃ p, codec.UnmarshalProveCommit m.Params = .ok p ∧
        lastPhaseOneSector b codec provider dealId seen = some p.SectorNumber) ∧
    ((∃ s, lastPhaseOneSector b codec provider dealId seen = some s) ↔
      ∃ m0 ∈ seen, ∃ s, phaseOneSector b codec provider dealId m0 = some s) ∧
    (m.Method = b.PreCommitSector →
      (matchEvent b codec provider dealId
        (feed b codec provider dealId MatchState.init seen) m).2 ≠ .ok true) ∧
    (m.To ≠ provider →
      (matchEvent b codec provider dealId
        (feed b codec provider dealId MatchState.init seen) m).2 = .ok false) ∧
    (lastPhaseOneSector b codec provider dealId seen = none →
      (matchEvent b codec provider dealId
        (feed b codec provider dealId MatchState.init seen) m).2 ≠ .ok true) := by
  have hiff := matchEvent_true_iff b codec provider dealId hd
    (feed b codec provider dealId MatchState.init seen) m
  have hfeed := feed_eq b codec provider dealId seen MatchState.init
  have hmain : (matchEvent b codec provider dealId
        (feed b codec provider dealId MatchState.init seen) m).2 = .ok true ↔
      m.To = provider ∧ m.Method = b.ProveCommitSector ∧
      ∃ p, codec.UnmarshalProveCommit m.Params = .ok p ∧
        lastPhaseOneSector b codec provider dealId seen = some p.SectorNumber := by
    rw [hiff, hfeed]
    cases hl : lastPhaseOneSector b codec provider dealId seen with
    | none => simp [MatchState.init]
    | some s =>
      simp only [true_and, Option.some.injEq]
      constructor
      · rintro ⟨h1, h2, p, hp, hs⟩
        exact ⟨h1, h2, p, hp, hs.symm⟩
      · rintro ⟨h1, h2, p, hp, hs⟩
        exact ⟨h1, h2, p, hp, hs.symm⟩
  refine ⟨hmain, ?_, ?_, ?_, ?_⟩
  · unfold lastPhaseOneSector
    constructor
    · rintro ⟨s, hs⟩
      have hmem := List.mem_of_mem_getLast? hs
      rcases List.mem_filterMap.1 hmem with ⟨m0, hm0, hs0⟩
      exact ⟨m0, hm0, s, hs0⟩
    · rintro ⟨m0, hm0, s, hs0⟩
      cases hl : (List.filterMap (phaseOneSector b codec provider dealId) seen).getLast? with
      | some s1 => exact ⟨s1, rfl⟩
      | none =>
        rw [List.getLast?_eq_none_iff, List.filterMap_eq_nil_iff] at hl
        rw [hl m0 hm0] at hs0
        simp at hs0
  · intro hpre h
    exact hd (hpre.symm.trans (hmain.1 h).2.1)
  · intro hto
    unfold matchEvent
    rw [if_pos hto]
  · intro hnone h
    obtain ⟨_, _, p, _, hp⟩ := hmain.1 h
    rw [hnone] at hp
    simp at hp

/-- Witness for C11: after a `PreCommitSector` for sector 7 naming deal 4, a
`ProveCommitSector` for sector 7 to provider 3 matches. -/
theorem matchEvent_two_phase_witness :
    exBuiltin.PreCommitSector ≠ exBuiltin.ProveCommitSector ∧
    (matchEvent exBuiltin exCodec 3 4
      (feed exBuiltin exCodec 3 4 MatchState.init [exPreCommit 7 [4]])
      (exProveCommit 3 7)).2 = .ok true :=
  ⟨by decide,
    (matchEvent_two_phase exBuiltin exCodec 3 4 (by decide) [exPreCommit 7 [4]]
      (exProveCommit 3 7)).1.2
      ⟨rfl, rfl, { SectorNumber := 7, Proof := [] }, rfl, by decide⟩⟩

/-- C12 (evaluation of the code): the watch of deal 4 at provider 3 sees a
`PreCommitSector` for sector 7 naming the deal; then the revert callback is invoked;
the shared variables are unchanged, and a following `ProveCommitSector` for sector 7
still matches although no new `PreCommitSector` has been observed. -/
theorem revert_keeps_correlation_key :
    (∀ (st : MatchState) (ts : TipSet), revert st ts = (st, none)) ∧
    (revert (feed exBuiltin exCodec 3 4 MatchState.init [exPreCommit 7 [4]]) 1).1
      = { sectorNumber := 7, sectorFound := true } ∧
    (revert (feed exBuiltin exCodec 3 4 MatchState.init [exPreCommit 7 [4]]) 1).2 = none ∧
    (matchEvent exBuiltin exCodec 3 4
      (revert (feed exBuiltin exCodec 3 4 MatchState.init [exPreCommit 7 [4]]) 1).1
      (exProveCommit 3 7)).2 = .ok true := by
  refine ⟨fun _ _ => rfl, by decide, by decide, rfl⟩

/-! ## Theorems: mempool statistics -/

theorem lookup_eq_none_iff (bkt : StatBucket) (k : Nat) :
    bkt.lookup k = none ↔ k ∉ bkt.map Prod.fst := by
  induction bkt with
  | nil => simp [StatBucket.lookup]
  | cons e rest ih =>
    obtain ⟨k0, v⟩ := e
    by_cases h : k0 = k
    · simp [StatBucket.lookup, h]
    · have h2 : ¬ k = k0 := fun h3 => h h3.symm
      simp [StatBucket.lookup, h, h2, ih]

/-- A key that is present makes the count of keys from `cur` on strictly larger than
the count of keys from `cur + 1` on. -/
theorem countP_ge_succ (keys : List Nat) (cur : Nat) (hmem : cur ∈ keys) :
    keys.countP (fun k => decide (cur + 1 ≤ k)) < keys.countP (fun k => decide (cur ≤ k)) := by
  induction keys with
  | nil => simp at hmem
  | cons k rest ih =>
    have hle : rest.countP (fun k => decide (cur + 1 ≤ k))
        ≤ rest.countP (fun k => decide (cur ≤ k)) := by
      apply List.countP_mono_left
      intro x _ hx
      simp only [decide_eq_true_eq] at hx ⊢
      omega
    rcases List.mem_cons.1 hmem with h | h
    · subst h
      have h1 : ¬ (cur + 1 ≤ cur) := by omega
      simp only [List.countP_cons, h1, decide_False, le_refl, decide_True, if_true]
      simp only [Bool.false_eq_true, if_false]
      omega
    · have := ih h
      simp only [List.countP_cons]
      by_cases h1 : cur + 1 ≤ k
      · have h2 : cur ≤ k := by omega
        simp only [h1, h2, decide_True, if_true]
        omega
      · by_cases h2 : cur ≤ k
        · simp only [h1, h2, decide_True, decide_False, if_true, Bool.false_eq_true, if_false]
          omega
        · simp only [h1, h2, decide_False, Bool.false_eq_true, if_false]
          omega

/-- The scan of lines 141-147 ends, within any fuel that exceeds the number of keys
from `cur` on, at the least absent nonce from `cur` on, provided some nonce from `cur`
on that fits a `uint64` is absent (the increment does not wrap). -/
theorem scanCur_spec (bkt : StatBucket) :
    ∀ (fuel cur : Nat),
      (bkt.map Prod.fst).countP (fun k => decide (cur ≤ k)) < fuel →
      (∃ c0, cur ≤ c0 ∧ c0 < uint64Size ∧ bkt.lookup c0 = none) →
      ∃ c, scanCur bkt cur fuel = some c ∧ cur ≤ c ∧ c < uint64Size ∧ bkt.lookup c = none ∧
        (∀ k, cur ≤ k → k < c → k ∈ bkt.map Prod.fst) := by
  intro fuel
  induction fuel with
  | zero => intro cur h; omega
  | succ fuel ih =>
    intro cur hfuel habs
    obtain ⟨c0, hc0, hc0lt, hc0none⟩ := habs
    cases hl : bkt.lookup cur with
    | none =>
      refine ⟨cur, ?_, le_refl _, by omega, hl, ?_⟩
      · simp only [scanCur, hl]
      · intro k h1 h2; omega
    | some v =>
      have hmem : cur ∈ bkt.map Prod.fst := by
        by_contra hne
        rw [(lookup_eq_none_iff bkt cur).2 hne] at hl
        simp at hl
      have hne : c0 ≠ cur := by
        intro h
        rw [h, hl] at hc0none
        simp at hc0none
      have hlt := countP_ge_succ (bkt.map Prod.fst) cur hmem
      have hmod : (cur + 1) % uint64Size = cur + 1 := Nat.mod_eq_of_lt (by omega)
      obtain ⟨c, hc, hle, hclt, hnone, hall⟩ :=
        ih (cur + 1) (by omega) ⟨c0, by omega, hc0lt, hc0none⟩
      refine ⟨c, ?_, by omega, hclt, hnone, ?_⟩
      · simp only [scanCur, hl, hmod]
        exact hc
      · intro k h1 h2
        by_cases hk : k = cur
        · rw [hk]; exact hmem
        · exact hall k (by omega) h2

/-- The counters of lines 149-158 count the entries with a nonce below `actNonce` and
the entries with a nonce above `cur`, as long as the counters cannot wrap. -/
theorem countPastFuture_eq (actNonce cur : Nat) (bkt : StatBucket) :
    ∀ past future : Nat, past + bkt.length < uint64Size → future + bkt.length < uint64Size →
      countPastFuture actNonce cur bkt (past, future) =
        (past + bkt.countP (fun e => decide (e.2.Message.Nonce < actNonce)),
         future + bkt.countP (fun e => decide (e.2.Message.Nonce > cur))) := by
  induction bkt with
  | nil => intro past future _ _; simp [countPastFuture]
  | cons e rest ih =>
    intro past future hp hf
    obtain ⟨k, m⟩ := e
    simp only [List.length_cons] at hp hf
    have hpm : (past + 1) % uint64Size = past + 1 := Nat.mod_eq_of_lt (by omega)
    have hfm : (future + 1) % uint64Size = future + 1 := Nat.mod_eq_of_lt (by omega)
    simp only [countPastFuture, hpm, hfm, List.countP_cons]
    by_cases h1 : m.Message.Nonce < actNonce
    · by_cases h2 : m.Message.Nonce > cur
      · simp only [h1, h2, if_true, decide_True]
        rw [ih (past + 1) (future + 1) (by omega) (by omega)]
        simp only [Prod.mk.injEq]
        omega
      · simp only [h1, h2, if_true, if_false, decide_True, decide_False, Bool.false_eq_true]
        rw [ih (past + 1) future (by omega) (by omega)]
        simp only [Prod.mk.injEq]
        omega
    · by_cases h2 : m.Message.Nonce > cur
      · simp only [h1, h2, if_true, if_false, decide_True, decide_False, Bool.false_eq_true]
        rw [ih past (future + 1) (by omega) (by omega)]
        simp only [Prod.mk.injEq]
        omega
      · simp only [h1, h2, if_false, decide_False, Bool.false_eq_true]
        rw [ih past future (by omega) (by omega)]
        simp only [Prod.mk.injEq]
        omega

/-- Keys other than `cur` fall in exactly one of: below `n`, from `n` up to `cur`,
above `cur`. -/
theorem length_eq_three_counts (n cur : Nat) (hle : n ≤ cur) (keys : List Nat)
    (hcur : cur ∉ keys) :
    keys.length = keys.countP (fun k => decide (k < n))
      + keys.countP (fun k => decide (n ≤ k ∧ k < cur))
      + keys.countP (fun k => decide (cur < k)) := by
  induction keys with
  | nil => simp
  | cons k rest ih =>
    have hk : k ≠ cur := fun h => hcur (h ▸ List.mem_cons_self _ _)
    have hrest := ih (fun h => hcur (List.mem_cons_of_mem _ h))
    simp only [List.length_cons, List.countP_cons]
    by_cases h1 : k < n
    · have h2 : ¬ (n ≤ k ∧ k < cur) := by omega
      have h3 : ¬ cur < k := by omega
      simp only [h1, h2, h3, decide_True, decide_False, if_true, Bool.false_eq_true, if_false]
      omega
    · by_cases h3 : cur < k
      · have h2 : ¬ (n ≤ k ∧ k < cur) := by omega
        simp only [h1, h2, h3, decide_True, decide_False, if_true, Bool.false_eq_true,
          if_false]
        omega
      · have h2 : n ≤ k ∧ k < cur := by omega
        simp only [h1, h2, h3, decide_True, decide_False, if_true, Bool.false_eq_true,
          if_false, and_self]
        omega

/-- With distinct keys, when every nonce from `n` up to `cur` is a key, the number of
keys in that range is `cur - n`. -/
theorem count_run (n cur : Nat) (keys : List Nat) (hnd : keys.Nodup)
    (hall : ∀ k, n ≤ k → k < cur → k ∈ keys) :
    keys.countP (fun k => decide (n ≤ k ∧ k < cur)) = cur - n := by
  rw [List.countP_eq_length_filter]
  have hperm : (keys.filter (fun k => decide (n ≤ k ∧ k < cur))).Perm
      (List.range' n (cur - n)) := by
    rw [List.perm_ext_iff_of_nodup (hnd.filter _) (List.nodup_range' n (cur - n))]
    intro k
    simp only [List.mem_filter, decide_eq_true_eq, List.mem_range'_1]
    constructor
    · rintro ⟨_, h1, h2⟩
      omega
    · rintro ⟨h1, h2⟩
      exact ⟨hall k h1 (by omega), h1, by omega⟩
  rw [hperm.length_eq, List.length_range']

theorem insert_keys (bkt : StatBucket) (k : Nat) (v : SignedMessage) :
    (bkt.insert k v).map Prod.fst =
      if k ∈ bkt.map Prod.fst then bkt.map Prod.fst else bkt.map Prod.fst ++ [k] := by
  induction bkt with
  | nil => simp [StatBucket.insert]
  | cons e rest ih =>
    obtain ⟨k0, v0⟩ := e
    by_cases h : k0 = k
    · simp [StatBucket.insert, h]
    · have h2 : ¬ k = k0 := fun h3 => h h3.symm
      simp only [StatBucket.insert, h, if_false, List.map_cons, ih, List.mem_cons, h2,
        false_or]
      split_ifs <;> simp

theorem insert_mem (bkt : StatBucket) (k : Nat) (v : SignedMessage) (e : Nat × SignedMessage)
    (he : e ∈ bkt.insert k v) : e ∈ bkt ∨ e = (k, v) := by
  induction bkt with
  | nil => simpa [StatBucket.insert] using he
  | cons e0 rest ih =>
    obtain ⟨k0, v0⟩ := e0
    by_cases h : k0 = k
    · simp only [StatBucket.insert, h, if_true, List.mem_cons] at he
      rcases he with he | he
      · exact Or.inr he
      · exact Or.inl (List.mem_cons_of_mem _ he)
    · simp only [StatBucket.insert, h, if_false, List.mem_cons] at he
      rcases he with he | he
      · exact Or.inl (he ▸ List.mem_cons_self _ _)
      · rcases ih he with h1 | h1
        · exact Or.inl (List.mem_cons_of_mem _ h1)
        · exact Or.inr h1

/-- Storing a message under its own nonce keeps the keys distinct and every message
under its own nonce. -/
theorem insert_wellFormed (bkt : StatBucket) (v : SignedMessage)
    (h : (bkt.map Prod.fst).Nodup ∧ ∀ e ∈ bkt, e.2.Message.Nonce = e.1) :
    ((bkt.insert v.Message.Nonce v).map Prod.fst).Nodup ∧
      ∀ e ∈ bkt.insert v.Message.Nonce v, e.2.Message.Nonce = e.1 := by
  constructor
  · rw [insert_keys]
    split_ifs with hm
    · exact h.1
    · exact List.Nodup.append h.1 (List.nodup_singleton _) (by simpa using hm)
  · intro e he
    rcases insert_mem bkt _ v e he with h1 | h1
    · exact h.2 e h1
    · rw [h1]

/-- Every bucket that the loop of lines 119-129 builds has distinct keys and holds
every message under its own nonce. -/
theorem buildBuckets_wellFormed (msgs : List SignedMessage) :
    ∀ ab ∈ buildBuckets msgs,
      (ab.2.map Prod.fst).Nodup ∧ ∀ e ∈ ab.2, e.2.Message.Nonce = e.1 := by
  have step : ∀ (bs : List (Address × StatBucket)) (v : SignedMessage),
      (∀ ab ∈ bs, (ab.2.map Prod.fst).Nodup ∧ ∀ e ∈ ab.2, e.2.Message.Nonce = e.1) →
      ∀ ab ∈ addToBuckets bs v,
        (ab.2.map Prod.fst).Nodup ∧ ∀ e ∈ ab.2, e.2.Message.Nonce = e.1 := by
    intro bs v
    induction bs with
    | nil =>
      intro _ ab hab
      simp only [addToBuckets, List.mem_singleton] at hab
      rw [hab]
      exact insert_wellFormed [] v ⟨List.nodup_nil, fun e he => by simp at he⟩
    | cons ab0 rest ih =>
      intro hbs ab hab
      obtain ⟨a0, bkt0⟩ := ab0
      by_cases h : a0 = v.Message.From
      · simp only [addToBuckets, h, if_true, List.mem_cons] at hab
        rcases hab with hab | hab
        · rw [hab]
          exact insert_wellFormed bkt0 v (hbs (a0, bkt0) (List.mem_cons_self _ _))
        · exact hbs ab (List.mem_cons_of_mem _ hab)
      · simp only [addToBuckets, h, if_false, List.mem_cons] at hab
        rcases hab with hab | hab
        · rw [hab]
          exact hbs (a0, bkt0) (List.mem_cons_self _ _)
        · exact ih (fun x hx => hbs x (List.mem_cons_of_mem _ hx)) ab hab
  have gen : ∀ (ms : List SignedMessage) (bs : List (Address × StatBucket)),
      (∀ ab ∈ bs, (ab.2.map Prod.fst).Nodup ∧ ∀ e ∈ ab.2, e.2.Message.Nonce = e.1) →
      ∀ ab ∈ ms.foldl addToBuckets bs,
        (ab.2.map Prod.fst).Nodup ∧ ∀ e ∈ ab.2, e.2.Message.Nonce = e.1 := by
    intro ms
    induction ms with
    | nil => intro bs hbs; simpa using hbs
    | cons m rest ih =>
      intro bs hbs
      simp only [List.foldl_cons]
      exact ih _ (step bs m hbs)
  exact gen msgs [] (fun ab hab => by simp at hab)

/-- The bucket of the worked example is the one the loop builds from the pending
messages with nonces 5, 2, 7, 6, 9 of sender 9. -/
theorem buildBuckets_example :
    buildBuckets [exPending 5, exPending 2, exPending 7, exPending 6, exPending 9]
      = [(9, exBucket)] := by
  decide

/-- C18: for a sender bucket (distinct nonce keys, every message stored under its own
nonce) and an actor nonce `n`, assuming nothing wraps around in `uint64` (some nonce
from `n` on that fits a `uint64` is absent from the bucket, and the number of messages
fits a `uint64`), the scan terminates (with any fuel above the bucket size) at `cur`,
the least nonce from `n` on that is absent from the bucket; `past` counts the entries
with nonce below `n`, the reported `cur` is `cur - n` and counts the entries with nonce
from `n` up to `cur`, `future` counts the entries with nonce above `cur`, and the three
counts add up to the number of messages in the bucket. -/
theorem mpoolStat_partition (a : Address) (bkt : StatBucket) (n : Nat)
    (hkeys : (bkt.map Prod.fst).Nodup)
    (hnonce : ∀ e ∈ bkt, e.2.Message.Nonce = e.1)
    (habs : ∃ c0, n ≤ c0 ∧ c0 < uint64Size ∧ bkt.lookup c0 = none)
    (hlen : bkt.length < uint64Size) :
    ∃ cur st,
      (∀ fuel, bkt.length < fuel → bucketStat a bkt n fuel = some (cur, st)) ∧
      n ≤ cur ∧ bkt.lookup cur = none ∧
      (∀ k, n ≤ k → k < cur → bkt.lookup k ≠ none) ∧
      st.past = bkt.countP (fun e => decide (e.1 < n)) ∧
      st.cur = cur - n ∧
      st.cur = bkt.countP (fun e => decide (n ≤ e.1 ∧ e.1 < cur)) ∧
      st.future = bkt.countP (fun e => decide (cur < e.1)) ∧
      st.past + st.cur + st.future = bkt.length := by
  have hcount : (bkt.map Prod.fst).countP (fun k => decide (n ≤ k)) ≤ bkt.length := by
    have := List.countP_le_length (fun k => decide (n ≤ k)) (l := bkt.map Prod.fst)
    simpa using this
  obtain ⟨cur, hscan, hle, hcurlt, hnone, hall⟩ :=
    scanCur_spec bkt (bkt.length + 1) n (by omega) habs
  have hcurmem : cur ∉ bkt.map Prod.fst := (lookup_eq_none_iff bkt cur).1 hnone
  have hpast : bkt.countP (fun e => decide (e.2.Message.Nonce < n))
      = bkt.countP (fun e => decide (e.1 < n)) := by
    apply List.countP_congr
    intro e he
    rw [hnonce e he]
  have hfut : bkt.countP (fun e => decide (e.2.Message.Nonce > cur))
      = bkt.countP (fun e => decide (cur < e.1)) := by
    apply List.countP_congr
    intro e he
    rw [hnonce e he]
  have hpf := countPastFuture_eq n cur bkt 0 0 (by omega) (by omega)
  have hsub : (cur + uint64Size - n) % uint64Size = cur - n := by
    have h1 : cur + uint64Size - n = (cur - n) + uint64Size := by omega
    rw [h1, Nat.add_mod_right]
    exact Nat.mod_eq_of_lt (by omega)
  have hthree := length_eq_three_counts n cur hle (bkt.map Prod.fst) hcurmem
  have hrun := count_run n cur (bkt.map Prod.fst) hkeys hall
  simp only [List.countP_map, List.length_map] at hthree hrun
  have hf1 : bkt.countP ((fun k => decide (k < n)) ∘ Prod.fst)
      = bkt.countP (fun e => decide (e.1 < n)) := rfl
  have hf2 : bkt.countP ((fun k => decide (n ≤ k ∧ k < cur)) ∘ Prod.fst)
      = bkt.countP (fun e => decide (n ≤ e.1 ∧ e.1 < cur)) := rfl
  have hf3 : bkt.countP ((fun k => decide (cur < k)) ∘ Prod.fst)
      = bkt.countP (fun e => decide (cur < e.1)) := rfl
  rw [hf1, hf2, hf3] at hthree
  rw [hf2] at hrun
  refine ⟨cur, { addr := a, past := bkt.countP (fun e => decide (e.1 < n)), cur := cur - n
                 future := bkt.countP (fun e => decide (cur < e.1)) }, ?_, hle, hnone, ?_,
    rfl, rfl, hrun.symm, rfl, ?_⟩
  · intro fuel hfuel
    obtain ⟨c2, hscan2, _, _, hnone2, hall2⟩ := scanCur_spec bkt fuel n (by omega) habs
    have hc : c2 = cur := by
      by_contra hne
      rcases Nat.lt_or_gt_of_ne hne with h | h
      · exact ((lookup_eq_none_iff bkt c2).1 hnone2) (hall c2 (by omega) h)
      · exact hcurmem (hall2 cur hle h)
    subst hc
    unfold bucketStat
    simp only [hscan2, hpf, hsub, Nat.zero_add, hpast, hfut]
  · intro k h1 h2 hk
    exact ((lookup_eq_none_iff bkt k).1 hk) (hall k h1 h2)
  · simp only []
    omega

/-- Witness for C18: the bucket with nonces 2, 5, 6, 7, 9 and actor nonce 5: the scan
stops at 8, with one message in the past, a run of three, and one in the future. -/
theorem mpoolStat_partition_witness :
    (exBucket.map Prod.fst).Nodup ∧
    (∀ e ∈ exBucket, e.2.Message.Nonce = e.1) ∧
    (∃ c0, 5 ≤ c0 ∧ c0 < uint64Size ∧ exBucket.lookup c0 = none) ∧
    exBucket.length < uint64Size ∧
    (∃ cur st,
      (∀ fuel, exBucket.length < fuel → bucketStat 9 exBucket 5 fuel = some (cur, st)) ∧
      5 ≤ cur ∧ exBucket.lookup cur = none ∧
      (∀ k, 5 ≤ k → k < cur → exBucket.lookup k ≠ none) ∧
      st.past = exBucket.countP (fun e => decide (e.1 < 5)) ∧
      st.cur = cur - 5 ∧
      st.cur = exBucket.countP (fun e => decide (5 ≤ e.1 ∧ e.1 < cur)) ∧
      st.future = exBucket.countP (fun e => decide (cur < e.1)) ∧
      st.past + st.cur + st.future = exBucket.length) ∧
    bucketStat 9 exBucket 5 6 = some (8, { addr := 9, past := 1, cur := 3, future := 1 }) :=
  have h1 : (exBucket.map Prod.fst).Nodup := by decide
  have h2 : ∀ e ∈ exBucket, e.2.Message.Nonce = e.1 := by decide
  have h3 : ∃ c0, 5 ≤ c0 ∧ c0 < uint64Size ∧ exBucket.lookup c0 = none :=
    ⟨8, by decide, by decide, by decide⟩
  have h4 : exBucket.length < uint64Size := by decide
  ⟨h1, h2, h3, h4, mpoolStat_partition 9 exBucket 5 h1 h2 h3 h4, by decide⟩

end Lotus
